import Mathlib

/-!
Verification of the devsync / aiconfigkit component-detection and
secret-scrubbing core against its specification.

The development shallowly embeds the relevant Python modules:

* `devsync/core/component_detector.py` — detection records, the MCP server
  detection pass (registry loop, home-directory guard, seen-path
  de-duplication, `.devsync/mcp` fallback), the memory-file pass, and
  `filter_detection_result`;
* `devsync/ai_tools/capability_registry.py` — the static capability
  registry (the fields the detector reads, in dict insertion order);
* `aiconfigkit/core/package_creator.py` — `PackageCreator.create`,
  `_process_mcp_servers`, and the `--force` handling of the CLI wrapper
  `aiconfigkit/cli/package_create.py`.

`aiconfigkit/core/secret_detector.py` and the `models` modules are not part
of the source tree; the definitions embedding them are modelled from the
specification (sections 4.2 and 3) and are marked as such in their doc
comments.

Filesystem state is passed explicitly: an `FS` record carries existence,
directory, JSON-content, symlink-resolution and listing queries, and the
package creator threads an explicit output-filesystem value.  Python
strings are Lean `String`s; paths are lists of components, rendered to
strings with a slash separator exactly where the source compares rendered
paths.
-/

namespace DevSync

/-! ## String and path utilities

Small structural (kernel-evaluable) helpers used by the embedding.  They
replace the corresponding Python `str` / `pathlib` primitives.
-/

/-- Character-list version of substring containment. -/
def charInfixAt (n : List Char) : List Char → Bool
  | [] => n.isEmpty
  | c :: rest => List.isPrefixOf n (c :: rest) || charInfixAt n rest

/-- Embeds `strContains h n` — Python `n in h` on strings. -/
def strContains (h n : String) : Bool := charInfixAt n.data h.data

/-- Python `str.upper` (ASCII portion, which is all the registry uses). -/
def upper (s : String) : String := ⟨s.data.map Char.toUpper⟩

/-- Python `str.lower` (ASCII portion). -/
def lower (s : String) : String := ⟨s.data.map Char.toLower⟩

/-- Split a character list on a separator character (structural). -/
def splitCharAux (sep : Char) : List Char → List Char → List (List Char)
  | acc, [] => [acc.reverse]
  | acc, c :: rest =>
    if c = sep then acc.reverse :: splitCharAux sep [] rest
    else splitCharAux sep (c :: acc) rest

/-- Split a string on a separator character, like Python `str.split(sep)`. -/
def splitChar (sep : Char) (s : String) : List String :=
  (splitCharAux sep [] s.data).map (fun l => ⟨l⟩)

/-- A path is a list of components; relative registry path strings such as
`".cursor/mcp.json"` are decomposed into components with this helper
(empty components from leading/trailing slashes are dropped, as
`pathlib.Path` does). -/
def splitPath (s : String) : List String :=
  (splitChar '/' s).filter (fun c => c ≠ "")

/-- Render an absolute path (list of components) the way `str(Path(...))`
renders it: a leading slash and slash-separated components. -/
def pathStr (p : List String) : String :=
  "/" ++ String.intercalate "/" p

/-- Python `"-".join l` translated structurally. -/
def joinDash : List String → String
  | [] => ""
  | [s] => s
  | s :: rest => s ++ "-" ++ joinDash rest

/-- Python `Path(name).stem`: the file name with its last extension
removed (a name without a dot is returned unchanged). -/
def stemOf (s : String) : String :=
  let parts := splitChar '.' s
  if parts.length ≤ 1 then s else String.intercalate "." parts.dropLast

/-- First `n` characters of a string (Python slice `s[:n]`). -/
def strTake (s : String) (n : Nat) : String := ⟨s.data.take n⟩

/-! ## JSON values

`json.load` results are embedded as this inductive; objects are
association lists in insertion order, matching Python `dict` iteration.
-/

inductive Json where
  | null : Json
  | bool : Bool → Json
  | num : Int → Json
  | str : String → Json
  | arr : List Json → Json
  | obj : List (String × Json) → Json
deriving Repr

/-- First binding of a key in an embedded JSON object field list. -/
def lookupJson : List (String × Json) → String → Option Json
  | [], _ => none
  | kv :: rest, k => if kv.1 = k then some kv.2 else lookupJson rest k

/-- Python `d.get(key, default)` on an embedded JSON object field list. -/
def jsonGetD (fields : List (String × Json)) (key : String) (dflt : Json) : Json :=
  (lookupJson fields key).getD dflt

/-- Python truthiness of a JSON value (`if not command: ...`). -/
def jsonFalsy : Json → Bool
  | .null => true
  | .bool b => !b
  | .num n => n = 0
  | .str s => s = ""
  | .arr l => l.isEmpty
  | .obj l => l.isEmpty

/-- Minimal JSON escaping for string serialization (quote and backslash;
the configs handled by the claims contain no other escapes). -/
def escapeJsonChar (c : Char) : List Char :=
  if c = '\\' then ['\\', '\\']
  else if c = '\"' then ['\\', '\"']
  else [c]

def quoteJsonStr (s : String) : String :=
  ⟨'\"' :: (s.data.flatMap escapeJsonChar) ++ ['\"']⟩

mutual

/-- Compact serialization of a JSON value, the model of what
`json.dump(config, f, indent=2)` writes in `_process_mcp_servers`
(whitespace differences of the `indent` pretty printer are immaterial to
every property stated about file contents, which are all about substring
presence of secret values and placeholders). -/
def Json.serialize : Json → String
  | .null => "null"
  | .bool b => if b then "true" else "false"
  | .num n => toString n
  | .str s => quoteJsonStr s
  | .arr xs => "[" ++ Json.serializeList xs ++ "]"
  | .obj fields => "\x7b" ++ Json.serializeObj fields ++ "\x7d"

def Json.serializeList : List Json → String
  | [] => ""
  | [x] => Json.serialize x
  | x :: rest => Json.serialize x ++ "," ++ Json.serializeList rest

def Json.serializeObj : List (String × Json) → String
  | [] => ""
  | [(k, v)] => quoteJsonStr k ++ ":" ++ Json.serialize v
  | (k, v) :: rest => quoteJsonStr k ++ ":" ++ Json.serialize v ++ "," ++ Json.serializeObj rest

end

/-! ## Secret detector

Modelled from the spec: `aiconfigkit/core/secret_detector.py` is not under
`src/` (only its call sites in `package_creator.py` and the package tests
are).  Section 4.2 of the spec fixes the contract: `detect(key, value)`
returns a confidence on the ordered scale none < low < medium < high,
derived from matching the key name against credential-name patterns
(tokens, keys, secrets, passwords, API keys) and inspecting the value
shape; `template` replaces every environment-map value whose key
classifies at medium-or-higher confidence with a placeholder embedding the
key name, and placeholder values must not themselves match the secret
heuristics.  The placeholder format `${KEY}` is taken from the package
tests (`test_create_with_mcp_server` expects `"${GITHUB_TOKEN}"`).
-/

inductive Confidence where
  | none : Confidence
  | low : Confidence
  | medium : Confidence
  | high : Confidence
deriving Repr, DecidableEq

/-- Modelled from the spec: the placeholder embedded for a templated key
"must deterministically encode the original environment-variable name"
(§6); the tests pin the concrete shape `${KEY}`. -/
def placeholderFor (key : String) : String := "$\x7b" ++ key ++ "\x7d"

/-- Modelled from the spec: a value that is already a placeholder is
recognizable as such ("placeholder values must not themselves match the
secret heuristics", §4.2). -/
def isPlaceholderValue (v : String) : Bool :=
  List.isPrefixOf "$\x7b".data v.data

/-- Modelled from the spec: "known credential-name patterns (tokens, keys,
secrets, passwords, API keys)" (§4.2). -/
def secretKeyPatterns : List String :=
  ["TOKEN", "SECRET", "PASSWORD", "PASSWD", "API_KEY", "APIKEY", "CREDENTIAL", "KEY"]

def keyMatchesSecretPattern (key : String) : Bool :=
  secretKeyPatterns.any (fun p => strContains (upper key) p)

/-- Modelled from the spec: value-shape inspection ("length, character
entropy, recognizable prefixes", §4.2); a clearly secret-shaped value is a
non-placeholder of credential-like length. -/
def valueLooksSecret (v : String) : Bool :=
  decide (8 ≤ v.length) && !isPlaceholderValue v

/-- Modelled from the spec: `SecretDetector.detect(key, value)` (§4.2).
Placeholder values never classify as secrets; a credential-named key
classifies high when its value is secret-shaped and medium otherwise;
other keys classify as none. -/
def detect (key value : String) : Confidence :=
  if isPlaceholderValue value then .none
  else if keyMatchesSecretPattern key then
    (if valueLooksSecret value then .high else .medium)
  else .none

def Confidence.atLeastMedium : Confidence → Bool
  | .medium => true
  | .high => true
  | _ => false

/-- Modelled from the spec: the per-entry step of `template` over the
config's environment-variable mapping — replace the value of every key
classified at medium-or-higher confidence with its placeholder and record
the key; leave everything else (including non-string values, which
"degrade to not-a-secret") unchanged (§4.2). -/
def templateEnvPairs : List (String × Json) → List (String × Json) × List String
  | [] => ([], [])
  | (k, v) :: rest =>
    let tail := templateEnvPairs rest
    match v with
    | .str s =>
      if (detect k s).atLeastMedium then
        ((k, .str (placeholderFor k)) :: tail.1, k :: tail.2)
      else ((k, v) :: tail.1, tail.2)
    | _ => ((k, v) :: tail.1, tail.2)

/-- Modelled from the spec: `template` walks the config's top-level fields
and rewrites only the `env` mapping; "non-credential keys and the
command/args fields are passed through unchanged" (§4.2). -/
def templateFields : List (String × Json) → List (String × Json) × List String
  | [] => ([], [])
  | (k, v) :: rest =>
    let tail := templateFields rest
    if k = "env" then
      match v with
      | .obj envPairs =>
        let t := templateEnvPairs envPairs
        ((k, .obj t.1) :: tail.1, t.2 ++ tail.2)
      | _ => ((k, v) :: tail.1, tail.2)
    else ((k, v) :: tail.1, tail.2)

/-- Modelled from the spec:
`template_secrets_in_config(config) -> (new_config, templated_key_names)`
(§4.2); total on every JSON value — a non-object config passes through
with nothing templated (classification on malformed input "degrades to
not a secret rather than propagating"). -/
def template_secrets_in_config : Json → Json × List String
  | .obj fields =>
    let t := templateFields fields
    (.obj t.1, t.2)
  | j => (j, [])

/-- Top-level key list of a config object (empty for non-objects). -/
def jsonTopKeys : Json → List String
  | .obj fields => fields.map Prod.fst
  | _ => []

/-- The predicate selecting fields outside the environment-variable
mapping. -/
def notEnvKey (kv : String × Json) : Bool := kv.1 != "env"

/-- Top-level fields outside the environment-variable mapping. -/
def jsonNonEnvFields : Json → List (String × Json)
  | .obj fields => fields.filter notEnvKey
  | _ => []

theorem data_placeholderFor (k : String) :
    (placeholderFor k).data = '$' :: '\x7b' :: (k.data ++ ['\x7d']) := by
  cases k
  rfl

theorem isPlaceholder_placeholderFor (k : String) :
    isPlaceholderValue (placeholderFor k) = true := by
  simp [isPlaceholderValue, data_placeholderFor, List.isPrefixOf]

theorem detect_placeholderFor (k : String) : detect k (placeholderFor k) = .none := by
  simp [detect, isPlaceholder_placeholderFor]

theorem atLeastMedium_none : Confidence.none.atLeastMedium = false := rfl

theorem templateEnvPairs_idem (l : List (String × Json)) :
    templateEnvPairs (templateEnvPairs l).1 = ((templateEnvPairs l).1, []) := by
  induction l with
  | nil => rfl
  | cons kv rest ih =>
    obtain ⟨k, v⟩ := kv
    match v with
    | .str s =>
      by_cases h : (detect k s).atLeastMedium = true
      · simp [templateEnvPairs, h, detect_placeholderFor, atLeastMedium_none, ih]
      · simp [templateEnvPairs, h, ih]
    | .null => simp [templateEnvPairs, ih]
    | .bool b => simp [templateEnvPairs, ih]
    | .num n => simp [templateEnvPairs, ih]
    | .arr xs => simp [templateEnvPairs, ih]
    | .obj fs => simp [templateEnvPairs, ih]

theorem templateFields_idem (l : List (String × Json)) :
    templateFields (templateFields l).1 = ((templateFields l).1, []) := by
  induction l with
  | nil => rfl
  | cons kv rest ih =>
    obtain ⟨k, v⟩ := kv
    by_cases hk : k = "env"
    · subst hk
      match v with
      | .obj envPairs =>
        simp [templateFields, templateEnvPairs_idem, ih]
      | .null => simp [templateFields, ih]
      | .bool b => simp [templateFields, ih]
      | .num n => simp [templateFields, ih]
      | .str s => simp [templateFields, ih]
      | .arr xs => simp [templateFields, ih]
    · simp [templateFields, hk, ih]

theorem templateFields_keys (l : List (String × Json)) :
    (templateFields l).1.map Prod.fst = l.map Prod.fst := by
  induction l with
  | nil => rfl
  | cons kv rest ih =>
    obtain ⟨k, v⟩ := kv
    by_cases hk : k = "env"
    · subst hk
      match v with
      | .obj envPairs => simp [templateFields, ih]
      | .null => simp [templateFields, ih]
      | .bool b => simp [templateFields, ih]
      | .num n => simp [templateFields, ih]
      | .str s => simp [templateFields, ih]
      | .arr xs => simp [templateFields, ih]
    · simp [templateFields, hk, ih]

theorem notEnvKey_env (v : Json) : notEnvKey ("env", v) = false := by
  simp [notEnvKey]

theorem templateFields_nonEnv (l : List (String × Json)) :
    (templateFields l).1.filter notEnvKey = l.filter notEnvKey := by
  induction l with
  | nil => rfl
  | cons kv rest ih =>
    obtain ⟨k, v⟩ := kv
    by_cases hk : k = "env"
    · subst hk
      match v with
      | .obj envPairs => simp [templateFields, List.filter_cons, notEnvKey_env, ih]
      | .null => simp [templateFields, List.filter_cons, notEnvKey_env, ih]
      | .bool b => simp [templateFields, List.filter_cons, notEnvKey_env, ih]
      | .num n => simp [templateFields, List.filter_cons, notEnvKey_env, ih]
      | .str s => simp [templateFields, List.filter_cons, notEnvKey_env, ih]
      | .arr xs => simp [templateFields, List.filter_cons, notEnvKey_env, ih]
    · simp [templateFields, hk, List.filter_cons, ih]

/-- C2: the secret-templating transform is total (it is a plain function
on all JSON values, including non-object ones), drops no top-level key and
alters no field outside the environment-variable mapping, and is
idempotent: re-templating already-templated output returns it unchanged
and reports no additional templated key names. -/
theorem template_secrets_total_idempotent (x : Json) :
    template_secrets_in_config (template_secrets_in_config x).1 =
        ((template_secrets_in_config x).1, []) ∧
      jsonTopKeys (template_secrets_in_config x).1 = jsonTopKeys x ∧
      jsonNonEnvFields (template_secrets_in_config x).1 = jsonNonEnvFields x := by
  match x with
  | .obj fields =>
    refine ⟨?_, ?_, ?_⟩
    · simp [template_secrets_in_config, templateFields_idem]
    · simp [template_secrets_in_config, jsonTopKeys, templateFields_keys]
    · simp [template_secrets_in_config, jsonNonEnvFields, templateFields_nonEnv]
  | .null => exact ⟨rfl, rfl, rfl⟩
  | .bool b => exact ⟨rfl, rfl, rfl⟩
  | .num n => exact ⟨rfl, rfl, rfl⟩
  | .str s => exact ⟨rfl, rfl, rfl⟩
  | .arr xs => exact ⟨rfl, rfl, rfl⟩

/-! ## Detection records and results

Embedding of the dataclasses of `devsync/core/component_detector.py`.
Absolute paths are component lists; only the fields the detector writes
are carried.
-/

structure DetectedInstruction where
  name : String
  file_path : List String
  relative_path : String
  source_ide : String
  content_preview : String := ""
deriving Repr, DecidableEq

structure DetectedMCPServer where
  name : String
  file_path : Option (List String)
  config : Json
  source : String
  env_vars : List String := []
  pip_package : Option String := none
  source_tool : String := ""
deriving Repr

structure DetectedHook where
  name : String
  file_path : List String
  relative_path : String
  hook_type : String
  source_tool : String := ""
deriving Repr, DecidableEq

structure DetectedCommand where
  name : String
  file_path : List String
  relative_path : String
  command_type : String
  source_tool : String := ""
deriving Repr, DecidableEq

structure DetectedResource where
  name : String
  file_path : List String
  relative_path : String
  size : Nat
  checksum : String
deriving Repr, DecidableEq

structure DetectedSkill where
  name : String
  dir_path : List String
  relative_path : String
  description : String := ""
  has_scripts : Bool := false
  source_tool : String := ""
deriving Repr, DecidableEq

structure DetectedWorkflow where
  name : String
  file_path : List String
  relative_path : String
  description : String := ""
  source_tool : String := ""
deriving Repr, DecidableEq

structure DetectedMemoryFile where
  name : String
  file_path : List String
  relative_path : String
  is_root : Bool := false
  content_preview : String := ""
  source_tool : String := ""
deriving Repr, DecidableEq

structure DetectionResult where
  instructions : List DetectedInstruction := []
  mcp_servers : List DetectedMCPServer := []
  hooks : List DetectedHook := []
  commands : List DetectedCommand := []
  skills : List DetectedSkill := []
  workflows : List DetectedWorkflow := []
  memory_files : List DetectedMemoryFile := []
  resources : List DetectedResource := []
  warnings : List String := []
deriving Repr

/-- Embeds `DetectionResult.total_count`. -/
def DetectionResult.total_count (r : DetectionResult) : Nat :=
  r.instructions.length + r.mcp_servers.length + r.hooks.length +
    r.commands.length + r.skills.length + r.workflows.length +
    r.memory_files.length + r.resources.length

/-! ## Detection filter (`filter_detection_result`) -/

/-- Embeds `COMPONENT_TYPE_MAP` — user-facing component aliases to internal list
names, in source order. -/
def COMPONENT_TYPE_MAP : List (String × String) :=
  [("rules", "instructions"), ("instructions", "instructions"),
   ("mcp", "mcp_servers"), ("mcp_servers", "mcp_servers"),
   ("hooks", "hooks"), ("commands", "commands"), ("skills", "skills"),
   ("workflows", "workflows"), ("memory", "memory_files"),
   ("memory_files", "memory_files"), ("resources", "resources")]

/-- Python `COMPONENT_TYPE_MAP.get(comp.lower())`. -/
def componentTypeMapGet (comp : String) : Option String :=
  (COMPONENT_TYPE_MAP.find? (fun kv => kv.1 = comp)).map Prod.snd

/-- The `allowed_fields` set computed by `filter_detection_result`
(`None` when no component filter was given — Python treats an empty
filter list as absent). -/
def allowedFields (component_filter : Option (List String)) : Option (List String) :=
  match component_filter with
  | none => none
  | some [] => none
  | some cf => some (cf.filterMap (fun comp => componentTypeMapGet (lower comp)))

/-- Case-insensitive provenance-tag membership used by `_filter_by_tool`. -/
def toolMatch (tool_filter : List String) (tag : String) : Bool :=
  (tool_filter.map lower).contains (lower tag)

/-- Embeds `_filter_by_tool(items, tool_attr)`: identity when the filter is
absent or empty (Python falsiness), otherwise keep items whose lowered
tag is in the lowered filter set. -/
def filterByTool {α : Type} (tool_filter : Option (List String)) (toolAttr : α → String)
    (items : List α) : List α :=
  match tool_filter with
  | none => items
  | some [] => items
  | some tf => items.filter (fun item => toolMatch tf (toolAttr item))

/-- Embeds `_get_field(field_name, items, tool_attr)`. -/
def getField {α : Type} (allowed : Option (List String)) (fieldName : String)
    (tool_filter : Option (List String)) (toolAttr : α → String)
    (items : List α) : List α :=
  match allowed with
  | some af => if af.contains fieldName then filterByTool tool_filter toolAttr items else []
  | none => filterByTool tool_filter toolAttr items

/-- Embeds `filter_detection_result(result, tool_filter, component_filter)`:
resources skip tool filtering (they are tool-agnostic), all other kinds
are narrowed by the case-insensitive provenance match; a component filter
zeroes out every unselected kind. -/
def filter_detection_result (result : DetectionResult)
    (tool_filter : Option (List String) := none)
    (component_filter : Option (List String) := none) : DetectionResult :=
  let allowed := allowedFields component_filter
  { instructions := getField allowed "instructions" tool_filter (·.source_ide) result.instructions
    mcp_servers := getField allowed "mcp_servers" tool_filter (·.source_tool) result.mcp_servers
    hooks := getField allowed "hooks" tool_filter (·.source_tool) result.hooks
    commands := getField allowed "commands" tool_filter (·.source_tool) result.commands
    skills := getField allowed "skills" tool_filter (·.source_tool) result.skills
    workflows := getField allowed "workflows" tool_filter (·.source_tool) result.workflows
    memory_files := getField allowed "memory_files" tool_filter (·.source_tool) result.memory_files
    resources :=
      match allowedFields component_filter with
      | none => result.resources
      | some af => if af.contains "resources" then result.resources else []
    warnings := result.warnings }

/-- Whether a component-kind filter admits the given internal kind. -/
def kindAllowed (component_filter : Option (List String)) (fieldName : String) : Bool :=
  match allowedFields component_filter with
  | none => true
  | some af => af.contains fieldName

theorem filterByTool_some_ne {α : Type} (tf : List String) (h : tf ≠ [])
    (toolAttr : α → String) (items : List α) :
    filterByTool (some tf) toolAttr items = items.filter (fun i => toolMatch tf (toolAttr i)) := by
  match tf with
  | [] => exact absurd rfl h
  | t :: rest => rfl

theorem getField_eq {α : Type} (cf : Option (List String)) (fieldName : String)
    (tf : List String) (h : tf ≠ []) (toolAttr : α → String) (items : List α) :
    getField (allowedFields cf) fieldName (some tf) toolAttr items =
      if kindAllowed cf fieldName then items.filter (fun i => toolMatch tf (toolAttr i)) else [] := by
  unfold getField kindAllowed
  match allowedFields cf with
  | none => simp [filterByTool_some_ne tf h]
  | some af =>
    by_cases haf : fieldName ∈ af
    · simp [haf, filterByTool_some_ne tf h]
    · simp [haf]

/-- C8: under any non-empty tool filter, every kind except resources is
narrowed to the records whose provenance tag matches the filter
(case-insensitively), gated by the component-kind filter; the resources
list is never reduced by the tool filter and is emptied exactly when a
component-kind filter excludes the `resources` kind. -/
theorem filter_detection_result_tool_filter (result : DetectionResult)
    (tf : List String) (cf : Option (List String)) (h : tf ≠ []) :
    (filter_detection_result result (some tf) cf).instructions =
        (if kindAllowed cf "instructions" then
          result.instructions.filter (fun i => toolMatch tf i.source_ide) else []) ∧
      (filter_detection_result result (some tf) cf).mcp_servers =
        (if kindAllowed cf "mcp_servers" then
          result.mcp_servers.filter (fun i => toolMatch tf i.source_tool) else []) ∧
      (filter_detection_result result (some tf) cf).hooks =
        (if kindAllowed cf "hooks" then
          result.hooks.filter (fun i => toolMatch tf i.source_tool) else []) ∧
      (filter_detection_result result (some tf) cf).commands =
        (if kindAllowed cf "commands" then
          result.commands.filter (fun i => toolMatch tf i.source_tool) else []) ∧
      (filter_detection_result result (some tf) cf).skills =
        (if kindAllowed cf "skills" then
          result.skills.filter (fun i => toolMatch tf i.source_tool) else []) ∧
      (filter_detection_result result (some tf) cf).workflows =
        (if kindAllowed cf "workflows" then
          result.workflows.filter (fun i => toolMatch tf i.source_tool) else []) ∧
      (filter_detection_result result (some tf) cf).memory_files =
        (if kindAllowed cf "memory_files" then
          result.memory_files.filter (fun i => toolMatch tf i.source_tool) else []) ∧
      (filter_detection_result result (some tf) cf).resources =
        (if kindAllowed cf "resources" then result.resources else []) := by
  refine ⟨?_, ?_, ?_, ?_, ?_, ?_, ?_, ?_⟩ <;>
    simp only [filter_detection_result, getField_eq cf _ tf h]
  unfold kindAllowed
  match allowedFields cf with
  | none => simp
  | some af => simp

/-! ## Package components

Modelled from the spec: `aiconfigkit/core/models.py` is not under `src/`;
§3/§6 fix that each component entry carries `name`, a package-relative
`file`, a `description`, and kind-specific extras (`credentials` for MCP
servers, `checksum`/`size` for resources), and that `total_count` of an
aggregate is the sum of the per-kind list lengths.
-/

structure CredentialDescriptor where
  name : String
  description : String
  required : Bool
deriving Repr, DecidableEq

structure InstructionComponent where
  name : String
  file : String
  description : String := ""
  tags : List String := []
  ide_support : List String := []
deriving Repr, DecidableEq

structure MCPServerComponent where
  name : String
  file : String
  description : String := ""
  credentials : List CredentialDescriptor := []
  ide_support : List String := []
deriving Repr, DecidableEq

structure HookComponent where
  name : String
  file : String
  description : String := ""
  hook_type : String := ""
  ide_support : List String := []
deriving Repr, DecidableEq

structure CommandComponent where
  name : String
  file : String
  description : String := ""
  command_type : String := ""
  ide_support : List String := []
deriving Repr, DecidableEq

structure SkillComponent where
  name : String
  file : String
  description : String := ""
  ide_support : List String := []
deriving Repr, DecidableEq

structure WorkflowComponent where
  name : String
  file : String
  description : String := ""
  ide_support : List String := []
deriving Repr, DecidableEq

structure MemoryFileComponent where
  name : String
  file : String
  description : String := ""
  ide_support : List String := []
deriving Repr, DecidableEq

structure ResourceComponent where
  name : String
  file : String
  description : String := ""
  install_path : String := ""
  checksum : String := ""
  size : Nat := 0
deriving Repr, DecidableEq

structure PackageComponents where
  instructions : List InstructionComponent := []
  mcp_servers : List MCPServerComponent := []
  hooks : List HookComponent := []
  commands : List CommandComponent := []
  skills : List SkillComponent := []
  workflows : List WorkflowComponent := []
  memory_files : List MemoryFileComponent := []
  resources : List ResourceComponent := []
deriving Repr, DecidableEq

/-- Modelled from the spec: `total_count` is the sum of the per-kind list
lengths (§3). -/
def PackageComponents.total_count (c : PackageComponents) : Nat :=
  c.instructions.length + c.mcp_servers.length + c.hooks.length +
    c.commands.length + c.skills.length + c.workflows.length +
    c.memory_files.length + c.resources.length

/-- Embeds `ComponentDetector.to_package_components` (devsync source, lines
940-1050); descriptions are included as the creator calls it with the
default `include_descriptions=True`. -/
def to_package_components (r : DetectionResult) : PackageComponents :=
  { instructions := r.instructions.map (fun i =>
      { name := i.name, file := i.relative_path,
        description := "Instruction from " ++ i.source_ide, tags := [i.source_ide] })
    mcp_servers := r.mcp_servers.map (fun m =>
      { name := m.name, file := "mcp/" ++ m.name ++ ".json",
        description := "MCP server from " ++ m.source, credentials := [],
        ide_support := if m.source_tool ≠ "" then [m.source_tool] else ["claude"] })
    hooks := r.hooks.map (fun h =>
      { name := h.name, file := h.relative_path, description := h.hook_type ++ " hook",
        hook_type := h.hook_type,
        ide_support := if h.source_tool ≠ "" then [h.source_tool] else ["claude"] })
    commands := r.commands.map (fun c =>
      { name := c.name, file := c.relative_path, description := c.command_type ++ " command",
        command_type := c.command_type,
        ide_support := if c.source_tool ≠ "" then [c.source_tool] else ["claude"] })
    skills := r.skills.map (fun s =>
      { name := s.name, file := s.relative_path,
        description := if s.description ≠ "" then s.description else "Skill",
        ide_support := if s.source_tool ≠ "" then [s.source_tool] else ["claude"] })
    workflows := r.workflows.map (fun w =>
      { name := w.name, file := w.relative_path,
        description := if w.description ≠ "" then w.description else "Workflow",
        ide_support := if w.source_tool ≠ "" then [w.source_tool] else ["windsurf"] })
    memory_files := r.memory_files.map (fun m =>
      { name := m.name, file := m.relative_path,
        description := if m.is_root then "Root memory file" else "Memory file",
        ide_support := if m.source_tool ≠ "" then [m.source_tool] else ["claude"] })
    resources := r.resources.map (fun res =>
      { name := res.name, file := res.relative_path, description := "Resource file",
        install_path := res.relative_path, checksum := "sha256:" ++ res.checksum,
        size := res.size }) }

/-! ## Package creator (`aiconfigkit/core/package_creator.py`)

The output directory tree the creator materializes is threaded as an
explicit `OutFS` value (directories plus files-with-contents); project
files are read through a `SrcFS` of read queries, where `none` models the
per-file I/O failures that the source converts into warnings.
-/

structure OutFS where
  dirs : List (List String) := []
  files : List (List String × String) := []
deriving Repr, DecidableEq

structure SrcFS where
  readFile : List String → Option String
  treeFiles : List String → Option (List (List String × String))

/-- Membership of a path in a directory list. -/
def listHasPath : List (List String) → List String → Bool
  | [], _ => false
  | d :: rest, p => d = p || listHasPath rest p

/-- Look a file's content up in a file table. -/
def findFile : List (List String × String) → List String → Option String
  | [], _ => none
  | f :: rest, p => if f.1 = p then some f.2 else findFile rest p

/-- Drop a file table's entry at a path, if any. -/
def removeFile : List (List String × String) → List String → List (List String × String)
  | [], _ => []
  | f :: rest, p => if f.1 = p then removeFile rest p else f :: removeFile rest p

/-- Drop every directory at or below a path. -/
def pruneDirs : List (List String) → List String → List (List String)
  | [], _ => []
  | d :: rest, p => if p.isPrefixOf d then pruneDirs rest p else d :: pruneDirs rest p

/-- Drop every file at or below a path. -/
def pruneFiles : List (List String × String) → List String → List (List String × String)
  | [], _ => []
  | f :: rest, p => if p.isPrefixOf f.1 then pruneFiles rest p else f :: pruneFiles rest p

/-- Embeds `Path.exists()` on the output tree. -/
def OutFS.pathExists (fs : OutFS) (p : List String) : Bool :=
  listHasPath fs.dirs p || (findFile fs.files p).isSome

/-- Embeds `Path.mkdir` (idempotent, mirroring `exist_ok=True` for subdirs). -/
def OutFS.mkdir (fs : OutFS) (p : List String) : OutFS :=
  if listHasPath fs.dirs p then fs else { fs with dirs := p :: fs.dirs }

/-- Embeds `open(path, "w")` followed by a full write: last write wins. -/
def OutFS.writeFile (fs : OutFS) (p : List String) (content : String) : OutFS :=
  { fs with files := removeFile fs.files p ++ [(p, content)] }

def OutFS.fileContent (fs : OutFS) (p : List String) : Option String :=
  findFile fs.files p

/-- Embeds `shutil.rmtree`: remove the directory and everything below it. -/
def OutFS.rmtree (fs : OutFS) (p : List String) : OutFS :=
  { dirs := pruneDirs fs.dirs p
    files := pruneFiles fs.files p }

/-- Python `Path.name` (last component). -/
def fileName (p : List String) : String := p.getLastD ""

structure PackageMetadata where
  name : String
  version : String := "1.0.0"
  description : String := ""
  author : String := ""
  license : String := "MIT"
  namespace_field : String := "local/local"
deriving Repr, DecidableEq

structure PackageCreationResult where
  success : Bool
  package_path : Option (List String) := none
  manifest_path : Option (List String) := none
  components_included : Nat := 0
  secrets_templated : Nat := 0
  warnings : List String := []
  error_message : Option String := none
deriving Repr

structure PackageCreator where
  output_dir : List String
  metadata : PackageMetadata
  scrub_secrets : Bool := true

/-- The derived destination `output_dir / f"package-{name}"`. -/
def PackageCreator.package_dir (c : PackageCreator) : List String :=
  c.output_dir ++ ["package-" ++ c.metadata.name]

/-- One `shutil.copy2` job: source path, destination path, warning text on
failure. -/
def copyJobs (srcfs : SrcFS) (jobs : List (List String × List String × String))
    (acc : OutFS × List String) : OutFS × List String :=
  jobs.foldl (fun acc job =>
    match srcfs.readFile job.1 with
    | some content => (acc.1.writeFile job.2.1 content, acc.2)
    | none => (acc.1, acc.2 ++ [job.2.2])) acc

/-- Embeds `shutil.copytree` for one skill directory. -/
def copySkillTree (srcfs : SrcFS) (src dest : List String) (warn : String)
    (acc : OutFS × List String) : OutFS × List String :=
  match srcfs.treeFiles src with
  | some entries =>
    ((entries.foldl (fun fs e => OutFS.writeFile fs (dest ++ e.1) e.2) (acc.1.mkdir dest)), acc.2)
  | none => (acc.1, acc.2 ++ [warn])

set_option maxHeartbeats 1000000 in
/-- Embeds `PackageCreator._copy_component_files`: each kind copies the detected
files whose names appear in the selection into its kind subdirectory;
every individual failure becomes a warning. -/
def copy_component_files (srcfs : SrcFS) (detection : DetectionResult)
    (components : PackageComponents) (package_dir : List String)
    (fs : OutFS) : OutFS × List String :=
  let instructionNames := components.instructions.map (·.name)
  let acc1 := copyJobs srcfs
    ((detection.instructions.filter (fun i => instructionNames.contains i.name)).map
      (fun i => (i.file_path, package_dir ++ ["instructions", i.name ++ ".md"],
        "Failed to copy instruction " ++ i.name))) (fs, ([] : List String))
  let hookNames := components.hooks.map (·.name)
  let acc2 := copyJobs srcfs
    ((detection.hooks.filter (fun h => hookNames.contains h.name)).map
      (fun h => (h.file_path, package_dir ++ ["hooks", fileName h.file_path],
        "Failed to copy hook " ++ h.name))) acc1
  let cmdNames := components.commands.map (·.name)
  let acc3 := copyJobs srcfs
    ((detection.commands.filter (fun c => cmdNames.contains c.name)).map
      (fun c => (c.file_path, package_dir ++ ["commands", fileName c.file_path],
        "Failed to copy command " ++ c.name))) acc2
  let resourceNames := components.resources.map (·.name)
  let acc4 := copyJobs srcfs
    ((detection.resources.filter (fun r => resourceNames.contains r.name)).map
      (fun r => (r.file_path, package_dir ++ ["resources", fileName r.file_path],
        "Failed to copy resource " ++ r.name))) acc3
  let skillNames := components.skills.map (·.name)
  let acc5 := (detection.skills.filter (fun s => skillNames.contains s.name)).foldl
    (fun acc s => copySkillTree srcfs s.dir_path (package_dir ++ ["skills", s.name])
      ("Failed to copy skill " ++ s.name) acc) acc4
  let workflowNames := components.workflows.map (·.name)
  let acc6 := copyJobs srcfs
    ((detection.workflows.filter (fun w => workflowNames.contains w.name)).map
      (fun w => (w.file_path, package_dir ++ ["workflows", fileName w.file_path],
        "Failed to copy workflow " ++ w.name))) acc5
  let memoryNames := components.memory_files.map (·.name)
  copyJobs srcfs
    ((detection.memory_files.filter (fun m => memoryNames.contains m.name)).map
      (fun m => (m.file_path,
        (if m.is_root then package_dir ++ ["memory_files", "CLAUDE.md"]
         else package_dir ++ ["memory_files"] ++ splitPath m.relative_path),
        "Failed to copy memory file " ++ m.name))) acc6

/-- The per-server body of `_process_mcp_servers`: template the config
when `scrub_secrets` is set and write it as its own JSON file under
`mcp/`, accumulating the templated-key count. -/
def processMCPStep (scrub_secrets : Bool) (package_dir : List String)
    (acc : OutFS × Nat) (server : DetectedMCPServer) : OutFS × Nat :=
  let templated :=
    if scrub_secrets then template_secrets_in_config server.config
    else (server.config, [])
  (acc.1.writeFile (package_dir ++ ["mcp", server.name ++ ".json"])
      (Json.serialize templated.1),
   acc.2 + (if scrub_secrets then templated.2.length else 0))

/-- Embeds `PackageCreator._process_mcp_servers`: every detected server (the
source passes `detection_result.mcp_servers`, not the selection) is
processed. -/
def process_mcp_servers (scrub_secrets : Bool) (servers : List DetectedMCPServer)
    (package_dir : List String) (fs : OutFS) : OutFS × Nat :=
  servers.foldl (processMCPStep scrub_secrets package_dir) (fs, 0)

/-- Python `{x.name: x for x in l}` dict lookup (later entries shadow). -/
def dictByName {α : Type} (key : α → String) (l : List α) (n : String) : Option α :=
  l.reverse.find? (fun x => key x = n)

/-- Embeds `PackageCreator._update_component_paths`: rewrite every component's
`file` to its package-relative location; MCP components additionally get
best-effort credential descriptors for every environment variable the
secret detector classifies at medium-or-higher confidence. -/
def update_component_paths (scrub_secrets : Bool) (components : PackageComponents)
    (detection : DetectionResult) : PackageComponents :=
  { instructions := components.instructions.map (fun i =>
      { i with file := "instructions/" ++ i.name ++ ".md" })
    mcp_servers := components.mcp_servers.map (fun m =>
      let detected := dictByName (·.name) detection.mcp_servers m.name
      let credentials :=
        match detected, scrub_secrets with
        | some d, true =>
          (d.env_vars.filter (fun ev => (detect "placeholder" ev).atLeastMedium)).map
            (fun ev => ({ name := ev,
                          description := "Environment variable for " ++ m.name,
                          required := true } : CredentialDescriptor))
        | _, _ => ([] : List CredentialDescriptor)
      { m with file := "mcp/" ++ m.name ++ ".json", credentials := credentials })
    hooks := components.hooks.map (fun h =>
      let fname := match dictByName (·.name) detection.hooks h.name with
        | some d => fileName d.file_path
        | none => h.name ++ ".sh"
      { h with file := "hooks/" ++ fname })
    commands := components.commands.map (fun c =>
      let fname := match dictByName (·.name) detection.commands c.name with
        | some d => fileName d.file_path
        | none => c.name ++ ".sh"
      { c with file := "commands/" ++ fname })
    skills := components.skills.map (fun s =>
      let descr := match dictByName (·.name) detection.skills s.name with
        | some d => d.description
        | none => s.description
      { s with file := "skills/" ++ s.name, description := descr })
    workflows := components.workflows.map (fun w =>
      match dictByName (·.name) detection.workflows w.name with
      | some d => { w with file := "workflows/" ++ fileName d.file_path,
                           description := d.description }
      | none => { w with file := "workflows/" ++ w.name ++ ".md" })
    memory_files := components.memory_files.map (fun m =>
      let file := match dictByName (·.name) detection.memory_files m.name with
        | some d => if d.is_root then "memory_files/CLAUDE.md"
            else "memory_files/" ++ d.relative_path
        | none => "memory_files/" ++ m.name ++ ".md"
      { m with file := file })
    resources := components.resources.map (fun r =>
      let d := dictByName (·.name) detection.resources r.name
      let fname := match d with | some dr => fileName dr.file_path | none => r.name
      let checksum := match d with | some dr => dr.checksum | none => r.checksum
      let size := match d with | some dr => dr.size | none => r.size
      let checksumOut :=
        if List.isPrefixOf "sha256:".data checksum.data then checksum
        else "sha256:" ++ checksum
      { r with file := "resources/" ++ fname,
               install_path := "resources/" ++ fname,
               checksum := checksumOut,
               size := size }) }

/-- The manifest document `_generate_manifest` builds (the wall-clock
`created_at` field and the YAML rendering are outside the modelled core;
the manifest is serialized with the JSON printer, which carries the same
fields). -/
def generate_manifest (metadata : PackageMetadata) (components : PackageComponents) : Json :=
  .obj [("name", .str metadata.name), ("version", .str metadata.version),
    ("description", .str metadata.description), ("author", .str metadata.author),
    ("license", .str metadata.license), ("namespace", .str metadata.namespace_field),
    ("components", .obj (
      (if components.instructions.isEmpty then [] else
        [("instructions", Json.arr (components.instructions.map (fun i =>
          .obj [("name", .str i.name), ("file", .str i.file),
            ("description", .str i.description),
            ("tags", .arr (i.tags.map Json.str))])))]) ++
      (if components.mcp_servers.isEmpty then [] else
        [("mcp_servers", Json.arr (components.mcp_servers.map (fun m =>
          .obj [("name", .str m.name), ("file", .str m.file),
            ("description", .str m.description),
            ("credentials", .arr (m.credentials.map (fun c =>
              .obj [("name", .str c.name), ("description", .str c.description),
                ("required", .bool c.required)]))),
            ("ide_support", .arr (m.ide_support.map Json.str))])))]) ++
      (if components.hooks.isEmpty then [] else
        [("hooks", Json.arr (components.hooks.map (fun h =>
          .obj [("name", .str h.name), ("file", .str h.file),
            ("description", .str h.description), ("hook_type", .str h.hook_type),
            ("ide_support", .arr (h.ide_support.map Json.str))])))]) ++
      (if components.commands.isEmpty then [] else
        [("commands", Json.arr (components.commands.map (fun c =>
          .obj [("name", .str c.name), ("file", .str c.file),
            ("description", .str c.description), ("command_type", .str c.command_type),
            ("ide_support", .arr (c.ide_support.map Json.str))])))]) ++
      (if components.resources.isEmpty then [] else
        [("resources", Json.arr (components.resources.map (fun r =>
          .obj [("name", .str r.name), ("file", .str r.file),
            ("description", .str r.description), ("install_path", .str r.install_path),
            ("checksum", .str r.checksum), ("size", .num r.size)])))]) ++
      (if components.skills.isEmpty then [] else
        [("skills", Json.arr (components.skills.map (fun s =>
          .obj [("name", .str s.name), ("file", .str s.file),
            ("description", .str s.description),
            ("ide_support", .arr (s.ide_support.map Json.str))])))]) ++
      (if components.workflows.isEmpty then [] else
        [("workflows", Json.arr (components.workflows.map (fun w =>
          .obj [("name", .str w.name), ("file", .str w.file),
            ("description", .str w.description),
            ("ide_support", .arr (w.ide_support.map Json.str))])))]) ++
      (if components.memory_files.isEmpty then [] else
        [("memory_files", Json.arr (components.memory_files.map (fun m =>
          .obj [("name", .str m.name), ("file", .str m.file),
            ("description", .str m.description),
            ("ide_support", .arr (m.ide_support.map Json.str))])))])))]

/-- The README summary `_generate_readme` builds (component listing; the
decorative date footer is outside the modelled core). -/
def generate_readme (metadata : PackageMetadata) (components : PackageComponents) : String :=
  String.intercalate "\n"
    (["# " ++ metadata.name, "",
      (if metadata.description ≠ "" then metadata.description
       else "Configuration package created with AI Config Kit."), "",
      "## Installation", "", "```bash",
      "aiconfig package install ./package-" ++ metadata.name ++ " --ide claude",
      "```", "", "## Components", ""] ++
     (components.instructions.map (fun i => "- **" ++ i.name ++ "**: " ++ i.description)) ++
     (components.mcp_servers.map (fun m => "- **" ++ m.name ++ "**: " ++ m.description)) ++
     (components.hooks.map (fun h => "- **" ++ h.name ++ "**: " ++ h.description)) ++
     (components.commands.map (fun c => "- **" ++ c.name ++ "**: " ++ c.description)) ++
     (components.resources.map (fun r => "- **" ++ r.name ++ "**: " ++ r.description)) ++
     (components.skills.map (fun s => "- **" ++ s.name ++ "**: " ++ s.description)) ++
     (components.workflows.map (fun w => "- **" ++ w.name ++ "**: " ++ w.description)) ++
     (components.memory_files.map (fun m => "- **" ++ m.name ++ "**: " ++ m.description)) ++
     ["## Author", "", (if metadata.author ≠ "" then metadata.author else "Unknown"),
      "", "## License", "", metadata.license])

/-- The kind subdirectories `create` makes inside the package. -/
def packageSubDirs : List String :=
  ["instructions", "mcp", "hooks", "commands", "skills", "workflows",
   "memory_files", "resources"]

/-- Embeds `PackageCreator.create(selected_components, detection_result)`: fail
when nothing is selected, fail when the derived destination already
exists, otherwise materialize the directory skeleton, copy the selected
files, process every detected MCP server, and emit manifest and README.
Returns the operation result together with the final output tree. -/
def PackageCreator.create (creator : PackageCreator) (srcfs : SrcFS)
    (detection : DetectionResult) (selected : Option PackageComponents)
    (fs : OutFS) : PackageCreationResult × OutFS :=
  let selected_components :=
    match selected with
    | some s => s
    | none => to_package_components detection
  if selected_components.total_count = 0 then
    ({ success := false, error_message := some "No components to package" }, fs)
  else
    let package_dir := creator.package_dir
    if fs.pathExists package_dir then
      ({ success := false,
         error_message := some ("Package directory already exists: " ++ pathStr package_dir) },
       fs)
    else
      let fs1 := packageSubDirs.foldl (fun a d => a.mkdir (package_dir ++ [d]))
        (fs.mkdir package_dir)
      let copied := copy_component_files srcfs detection selected_components package_dir fs1
      let mcp := process_mcp_servers creator.scrub_secrets detection.mcp_servers
        package_dir copied.1
      let final_components := update_component_paths creator.scrub_secrets
        selected_components detection
      let manifest_path := package_dir ++ ["ai-config-kit-package.yaml"]
      let fs4 := mcp.1.writeFile manifest_path
        (Json.serialize (generate_manifest creator.metadata final_components))
      let fs5 := fs4.writeFile (package_dir ++ ["README.md"])
        (generate_readme creator.metadata final_components)
      ({ success := true, package_path := some package_dir,
         manifest_path := some manifest_path,
         components_included := final_components.total_count,
         secrets_templated := mcp.2,
         warnings := copied.2 }, fs5)

/-- The destination handling of the CLI wrapper
(`aiconfigkit/cli/package_create.py`, lines 179-190): an existing package
directory is removed with `shutil.rmtree` when `--force` is given and is
a fatal refusal (`typer.Exit`, modelled as `none`) otherwise; the creator
is then invoked with the detection result and no explicit selection. -/
def create_package_command (creator : PackageCreator) (force : Bool) (srcfs : SrcFS)
    (detection : DetectionResult) (fs : OutFS) :
    Option (PackageCreationResult × OutFS) :=
  let package_dir := creator.package_dir
  if fs.pathExists package_dir then
    if force then
      some (creator.create srcfs detection none (fs.rmtree package_dir))
    else none
  else
    some (creator.create srcfs detection none fs)

/-! ## Output-filesystem lemmas -/

theorem findFile_append (l₁ l₂ : List (List String × String)) (p : List String) :
    findFile (l₁ ++ l₂) p =
      match findFile l₁ p with
      | some c => some c
      | none => findFile l₂ p := by
  induction l₁ with
  | nil => simp [findFile]
  | cons f rest ih =>
    by_cases hp : f.1 = p
    · simp [findFile, hp]
    · simp [findFile, hp, ih]

theorem findFile_removeFile_self (l : List (List String × String)) (p : List String) :
    findFile (removeFile l p) p = none := by
  induction l with
  | nil => rfl
  | cons f rest ih =>
    by_cases hp : f.1 = p
    · simp [removeFile, hp, ih]
    · simp [removeFile, findFile, hp, ih]

theorem findFile_removeFile_ne (l : List (List String × String)) (p q : List String)
    (h : q ≠ p) :
    findFile (removeFile l p) q = findFile l q := by
  induction l with
  | nil => rfl
  | cons f rest ih =>
    by_cases hp : f.1 = p
    · have hq : f.1 ≠ q := by rw [hp]; exact Ne.symm h
      simp [removeFile, findFile, hp, hq, Ne.symm h, ih]
    · by_cases hq : f.1 = q
      · simp [removeFile, findFile, hp, hq, h]
      · simp [removeFile, findFile, hp, hq, ih]

theorem fileContent_writeFile_self (fs : OutFS) (p : List String) (c : String) :
    (fs.writeFile p c).fileContent p = some c := by
  unfold OutFS.writeFile OutFS.fileContent
  rw [findFile_append, findFile_removeFile_self]
  simp [findFile]

theorem fileContent_writeFile_ne (fs : OutFS) (p q : List String) (c : String)
    (h : q ≠ p) :
    (fs.writeFile p c).fileContent q = fs.fileContent q := by
  unfold OutFS.writeFile OutFS.fileContent
  rw [findFile_append, findFile_removeFile_ne _ _ _ h]
  rcases hfind : findFile fs.files q with _ | cq
  · simp [findFile, Ne.symm h]
  · simp

theorem fileContent_writeFile_isSome (fs : OutFS) (p q : List String) (c : String)
    (h : (fs.fileContent q).isSome = true) :
    ((fs.writeFile p c).fileContent q).isSome = true := by
  by_cases hpq : q = p
  · subst hpq
    rw [fileContent_writeFile_self]
    rfl
  · rw [fileContent_writeFile_ne fs p q c hpq]
    exact h

theorem fileContent_mkdir (fs : OutFS) (d q : List String) :
    (fs.mkdir d).fileContent q = fs.fileContent q := by
  unfold OutFS.mkdir OutFS.fileContent
  split <;> rfl

/-! ## C7: empty selection refuses without touching the disk -/

/-- C7: a package-creation call whose selected component set is empty
fails with the "No components to package" error, and the output
filesystem is returned untouched — no destination directory is created. -/
theorem create_rejects_empty_selection (creator : PackageCreator) (srcfs : SrcFS)
    (detection : DetectionResult) (s : PackageComponents) (fs : OutFS)
    (h : s.total_count = 0) :
    creator.create srcfs detection (some s) fs =
      ({ success := false, error_message := some "No components to package" }, fs) := by
  unfold PackageCreator.create
  simp [h]

def emptySrcFS : SrcFS := ⟨fun _ => none, fun _ => none⟩

def demoMetadata : PackageMetadata := { name := "demo" }

def demoCreator : PackageCreator := { output_dir := ["out"], metadata := demoMetadata }

theorem create_rejects_empty_selection_witness :
    ({} : PackageComponents).total_count = 0 ∧
      demoCreator.create emptySrcFS {} (some {}) {} =
        ({ success := false, error_message := some "No components to package" }, {}) :=
  ⟨rfl, create_rejects_empty_selection demoCreator emptySrcFS {} {} {} rfl⟩

/-! ## C5: existing destination refused; CLI --force removes it first -/

theorem listHasPath_pruneDirs (dirs : List (List String)) (d p : List String)
    (h : d.isPrefixOf p = true) :
    listHasPath (pruneDirs dirs d) p = false := by
  induction dirs with
  | nil => rfl
  | cons x rest ih =>
    by_cases hx : d.isPrefixOf x
    · simp [pruneDirs, hx, ih]
    · have hxp : x ≠ p := by
        intro he
        rw [he] at hx
        exact hx h
      simp [pruneDirs, listHasPath, hx, hxp, ih]

theorem findFile_pruneFiles (files : List (List String × String)) (d p : List String)
    (h : d.isPrefixOf p = true) :
    findFile (pruneFiles files d) p = none := by
  induction files with
  | nil => rfl
  | cons f rest ih =>
    by_cases hf : d.isPrefixOf f.1
    · simp [pruneFiles, hf, ih]
    · have hfp : f.1 ≠ p := by
        intro he
        rw [he] at hf
        exact hf h
      simp [pruneFiles, findFile, hf, hfp, ih]

theorem rmtree_clears_subtree (fs : OutFS) (d p : List String)
    (h : d.isPrefixOf p = true) :
    ((fs.rmtree d).pathExists p) = false := by
  unfold OutFS.rmtree OutFS.pathExists
  simp [listHasPath_pruneDirs _ _ _ h, findFile_pruneFiles _ _ _ h]

/-- C5: when the derived destination directory `output_dir/package-<name>`
already exists, `PackageCreator.create` fails and leaves the output tree
untouched; the CLI layer refuses outright without `--force` and with
`--force` fully removes the existing directory tree before invoking the
creator. -/
theorem create_refuses_existing_package_dir (creator : PackageCreator)
    (srcfs : SrcFS) (detection : DetectionResult) (sel : Option PackageComponents)
    (fs : OutFS) (h : fs.pathExists creator.package_dir = true) :
    ((creator.create srcfs detection sel fs).1.success = false ∧
        (creator.create srcfs detection sel fs).2 = fs) ∧
      create_package_command creator false srcfs detection fs = none ∧
      create_package_command creator true srcfs detection fs =
        some (creator.create srcfs detection none (fs.rmtree creator.package_dir)) ∧
      ∀ p, creator.package_dir.isPrefixOf p = true →
        ((fs.rmtree creator.package_dir).pathExists p) = false := by
  refine ⟨?_, ?_, ?_, ?_⟩
  · unfold PackageCreator.create
    by_cases hc :
        (match sel with
          | some s => s
          | none => to_package_components detection).total_count = 0
    · simp [hc]
    · simp [hc, h]
  · unfold create_package_command
    simp [h]
  · unfold create_package_command
    simp [h]
  · intro p hp
    exact rmtree_clears_subtree fs creator.package_dir p hp

def demoExistingFS : OutFS := { dirs := [["out", "package-demo"]] }

theorem create_refuses_existing_package_dir_witness :
    demoExistingFS.pathExists demoCreator.package_dir = true ∧
      ((demoCreator.create emptySrcFS {} none demoExistingFS).1.success = false ∧
          (demoCreator.create emptySrcFS {} none demoExistingFS).2 = demoExistingFS) ∧
        create_package_command demoCreator false emptySrcFS {} demoExistingFS = none ∧
        create_package_command demoCreator true emptySrcFS {} demoExistingFS =
          some (demoCreator.create emptySrcFS {} none
            (demoExistingFS.rmtree demoCreator.package_dir)) ∧
        ∀ p, demoCreator.package_dir.isPrefixOf p = true →
          ((demoExistingFS.rmtree demoCreator.package_dir).pathExists p) = false :=
  ⟨rfl, create_refuses_existing_package_dir demoCreator emptySrcFS {} none
    demoExistingFS rfl⟩

/-! ## MCP server processing lemmas (C6, C1) -/

theorem string_data_injective {a b : String} (h : a.data = b.data) : a = b := by
  cases a
  cases b
  exact congrArg String.mk h

theorem string_append_right_cancel {a b c : String} (h : a ++ c = b ++ c) : a = b := by
  apply string_data_injective
  have hd : a.data ++ c.data = b.data ++ c.data := congrArg String.data h
  exact List.append_cancel_right hd

theorem mcpPath_ne (pkg : List String) {a b : String} (h : a ≠ b) :
    pkg ++ ["mcp", a ++ ".json"] ≠ pkg ++ ["mcp", b ++ ".json"] := by
  intro he
  have h2 : ["mcp", a ++ ".json"] = ["mcp", b ++ ".json"] := List.append_cancel_left he
  have h3 : a ++ ".json" = b ++ ".json" := by
    injection h2 with _ h4
    injection h4 with h5 _
  exact h (string_append_right_cancel h3)

theorem process_fold_preserves (scrub : Bool) (pkg : List String)
    (servers : List DetectedMCPServer) (acc : OutFS × Nat) (q : List String)
    (h : ∀ r ∈ servers, pkg ++ ["mcp", r.name ++ ".json"] ≠ q) :
    (servers.foldl (processMCPStep scrub pkg) acc).1.fileContent q =
      acc.1.fileContent q := by
  induction servers generalizing acc with
  | nil => rfl
  | cons s rest ih =>
    rw [List.foldl_cons]
    rw [ih (processMCPStep scrub pkg acc s) (fun r hr => h r (List.mem_cons_of_mem s hr))]
    exact fileContent_writeFile_ne _ _ _ _ (Ne.symm (h s (List.mem_cons_self s rest)))

theorem process_fold_isSome_mono (scrub : Bool) (pkg : List String)
    (servers : List DetectedMCPServer) (acc : OutFS × Nat) (q : List String)
    (h : (acc.1.fileContent q).isSome = true) :
    ((servers.foldl (processMCPStep scrub pkg) acc).1.fileContent q).isSome = true := by
  induction servers generalizing acc with
  | nil => exact h
  | cons s rest ih =>
    rw [List.foldl_cons]
    exact ih _ (fileContent_writeFile_isSome _ _ _ _ h)

theorem process_fold_content (scrub : Bool) (pkg : List String)
    (servers : List DetectedMCPServer) (acc : OutFS × Nat)
    (server : DetectedMCPServer) (hmem : server ∈ servers)
    (hnodup : (servers.map (fun s => s.name)).Nodup) :
    (servers.foldl (processMCPStep scrub pkg) acc).1.fileContent
        (pkg ++ ["mcp", server.name ++ ".json"]) =
      some (Json.serialize
        (if scrub then (template_secrets_in_config server.config).1
         else server.config)) := by
  induction servers generalizing acc with
  | nil => cases hmem
  | cons s rest ih =>
    rw [List.map_cons, List.nodup_cons] at hnodup
    rcases List.mem_cons.mp hmem with heq | hrest
    · subst heq
      rw [List.foldl_cons]
      rw [process_fold_preserves scrub pkg rest _ _ ?hne]
      case hne =>
        intro r hr
        apply mcpPath_ne
        intro hname
        exact hnodup.1 (hname ▸ List.mem_map_of_mem (fun x => x.name) hr)
      unfold processMCPStep
      by_cases hscrub : scrub = true
      · subst hscrub
        simpa using fileContent_writeFile_self _ _ _
      · have hf : scrub = false := by
          cases scrub
          · rfl
          · exact absurd rfl hscrub
        subst hf
        simpa using fileContent_writeFile_self _ _ _
    · rw [List.foldl_cons]
      exact ih _ hrest hnodup.2

theorem process_fold_exists (scrub : Bool) (pkg : List String)
    (servers : List DetectedMCPServer) (acc : OutFS × Nat)
    (server : DetectedMCPServer) (hmem : server ∈ servers) :
    ((servers.foldl (processMCPStep scrub pkg) acc).1.fileContent
        (pkg ++ ["mcp", server.name ++ ".json"])).isSome = true := by
  induction servers generalizing acc with
  | nil => cases hmem
  | cons s rest ih =>
    rcases List.mem_cons.mp hmem with heq | hrest
    · subst heq
      rw [List.foldl_cons]
      apply process_fold_isSome_mono
      unfold processMCPStep
      by_cases hscrub : scrub = true
      · subst hscrub
        simp only [if_true]
        rw [fileContent_writeFile_self]
        rfl
      · have hf : scrub = false := by
          cases scrub
          · rfl
          · exact absurd rfl hscrub
        subst hf
        simp only [Bool.false_eq_true, if_false]
        rw [fileContent_writeFile_self]
        rfl
    · rw [List.foldl_cons]
      exact ih _ hrest

/-! ## C6: selection does not narrow the MCP files written -/

def mcpConfigAlpha : Json := .obj [("command", .str "npx")]

def mcpConfigBeta : Json := .obj [("command", .str "uvx")]

def serverAlpha : DetectedMCPServer :=
  { name := "alpha", file_path := none, config := mcpConfigAlpha,
    source := ".mcp.json", source_tool := "claude" }

def serverBeta : DetectedMCPServer :=
  { name := "beta", file_path := none, config := mcpConfigBeta,
    source := ".mcp.json", source_tool := "claude" }

def demoDetection : DetectionResult :=
  { mcp_servers := [serverAlpha, serverBeta] }

def alphaOnlySelection : PackageComponents :=
  { mcp_servers := [{ name := "alpha", file := "mcp/alpha.json" }] }

/-- C6 counterexample: packaging `demoDetection` (servers `alpha` and
`beta`) with a selection containing only `alpha` still writes
`mcp/beta.json` into the package — an MCP server outside the selection
does leave a file. -/
theorem unselected_mcp_file_written_counterexample :
    (alphaOnlySelection.mcp_servers.map (fun m => m.name)).contains "beta" = false ∧
      (((demoCreator.create emptySrcFS demoDetection (some alphaOnlySelection)
            {}).2).fileContent
          (["out", "package-demo", "mcp", "beta.json"])).isSome = true := by
  exact ⟨rfl, rfl⟩

/-- C6 (amended): a successful `create` writes `mcp/<name>.json` for
every MCP server of the detection result, whether selected or not — the
selection narrows the copied files of the other kinds and the manifest
entries, but not the set of MCP config files written. -/
theorem create_writes_every_detected_mcp_file (creator : PackageCreator)
    (srcfs : SrcFS) (detection : DetectionResult) (sel : Option PackageComponents)
    (fs : OutFS)
    (hsuccess : (creator.create srcfs detection sel fs).1.success = true) :
    ∀ server ∈ detection.mcp_servers,
      (((creator.create srcfs detection sel fs).2).fileContent
          (creator.package_dir ++ ["mcp", server.name ++ ".json"])).isSome = true := by
  intro server hmem
  unfold PackageCreator.create at hsuccess ⊢
  by_cases hc :
      (match sel with
        | some s => s
        | none => to_package_components detection).total_count = 0
  · simp [hc] at hsuccess
  · by_cases hpe : fs.pathExists creator.package_dir = true
    · simp [hc, hpe] at hsuccess
    · rw [if_neg hc, if_neg hpe]
      apply fileContent_writeFile_isSome
      apply fileContent_writeFile_isSome
      exact process_fold_exists _ _ _ _ server hmem

/-- Closed instance discharging the hypotheses of the amended C6
theorem. -/
theorem create_writes_every_detected_mcp_file_witness :
    ((demoCreator.create emptySrcFS demoDetection (some alphaOnlySelection)
        {}).1.success = true) ∧
      serverBeta ∈ demoDetection.mcp_servers ∧
      (((demoCreator.create emptySrcFS demoDetection (some alphaOnlySelection)
            {}).2).fileContent
          (demoCreator.package_dir ++ ["mcp", serverBeta.name ++ ".json"])).isSome = true :=
  ⟨rfl, List.mem_cons_of_mem _ (List.mem_cons_self _ _),
    create_writes_every_detected_mcp_file demoCreator emptySrcFS demoDetection
      (some alphaOnlySelection) {} rfl serverBeta
      (List.mem_cons_of_mem _ (List.mem_cons_self _ _))⟩

/-! ## C1: secret scrubbing of packaged MCP configs -/

theorem valueLooksSecret_not_placeholder {v : String} (h : valueLooksSecret v = true) :
    isPlaceholderValue v = false := by
  unfold valueLooksSecret at h
  rcases Bool.and_eq_true_iff.mp h with ⟨_, h2⟩
  cases hpl : isPlaceholderValue v
  · rfl
  · rw [hpl] at h2
    cases h2

theorem detect_high {k v : String} (hkey : keyMatchesSecretPattern k = true)
    (hval : valueLooksSecret v = true) : detect k v = .high := by
  unfold detect
  rw [valueLooksSecret_not_placeholder hval]
  simp [hkey, hval]

theorem placeholderFor_ne_secret {k v : String} (hval : valueLooksSecret v = true) :
    placeholderFor k ≠ v := by
  intro he
  have h1 := isPlaceholder_placeholderFor k
  rw [he, valueLooksSecret_not_placeholder hval] at h1
  cases h1

theorem charInfixAt_cons (n : List Char) (c : Char) (l : List Char)
    (h : charInfixAt n l = true) : charInfixAt n (c :: l) = true := by
  unfold charInfixAt
  rw [h]
  simp

theorem charInfixAt_of_isPrefixOf (n l : List Char) (h : n.isPrefixOf l = true) :
    charInfixAt n l = true := by
  match l with
  | [] =>
    match n with
    | [] => rfl
    | c :: _ => cases h
  | c :: rest =>
    unfold charInfixAt
    rw [h]
    simp

theorem isPrefixOf_append_self (n rest : List Char) :
    n.isPrefixOf (n ++ rest) = true := by
  induction n with
  | nil => simp [List.isPrefixOf]
  | cons c cs ih => simp [List.isPrefixOf, ih]

theorem strContains_placeholderFor (k : String) :
    strContains (placeholderFor k) k = true := by
  unfold strContains
  rw [data_placeholderFor]
  apply charInfixAt_cons
  apply charInfixAt_cons
  exact charInfixAt_of_isPrefixOf _ _ (isPrefixOf_append_self k.data ['\x7d'])

theorem lookupJson_templateFields_env (fields : List (String × Json))
    (env : List (String × Json))
    (h : lookupJson fields "env" = some (.obj env)) :
    lookupJson (templateFields fields).1 "env" = some (.obj (templateEnvPairs env).1) := by
  induction fields with
  | nil => cases h
  | cons kv rest ih =>
    obtain ⟨k, v⟩ := kv
    by_cases hk : k = "env"
    · subst hk
      rw [lookupJson] at h
      simp only [if_pos rfl] at h
      have hv : v = Json.obj env := by injection h
      subst hv
      simp [templateFields, lookupJson]
    · rw [lookupJson] at h
      rw [if_neg hk] at h
      have htail := ih h
      match v with
      | .null => simpa [templateFields, lookupJson, hk] using htail
      | .bool b => simpa [templateFields, lookupJson, hk] using htail
      | .num n => simpa [templateFields, lookupJson, hk] using htail
      | .str sv => simpa [templateFields, lookupJson, hk] using htail
      | .arr xs => simpa [templateFields, lookupJson, hk] using htail
      | .obj fs => simpa [templateFields, lookupJson, hk] using htail

theorem lookupJson_templateEnvPairs (env : List (String × Json)) (k v : String)
    (h : lookupJson env k = some (.str v))
    (hmed : (detect k v).atLeastMedium = true) :
    lookupJson (templateEnvPairs env).1 k = some (.str (placeholderFor k)) := by
  induction env with
  | nil => cases h
  | cons kv rest ih =>
    obtain ⟨k₀, v₀⟩ := kv
    by_cases hk : k₀ = k
    · subst hk
      rw [lookupJson] at h
      simp only [if_pos rfl] at h
      have hv : v₀ = Json.str v := by injection h
      subst hv
      simp [templateEnvPairs, hmed, lookupJson]
    · rw [lookupJson] at h
      rw [if_neg hk] at h
      have htail := ih h
      match v₀ with
      | .null => simpa [templateEnvPairs, lookupJson, hk] using htail
      | .bool b => simpa [templateEnvPairs, lookupJson, hk] using htail
      | .num n => simpa [templateEnvPairs, lookupJson, hk] using htail
      | .arr xs => simpa [templateEnvPairs, lookupJson, hk] using htail
      | .obj fs => simpa [templateEnvPairs, lookupJson, hk] using htail
      | .str s₀ =>
        by_cases hc : (detect k₀ s₀).atLeastMedium = true
        · simpa [templateEnvPairs, hc, lookupJson, hk] using htail
        · simpa [templateEnvPairs, hc, lookupJson, hk] using htail

theorem templateEnvPairs_no_secret_left (env : List (String × Json)) (v : String)
    (hval : valueLooksSecret v = true) :
    ∀ kv ∈ (templateEnvPairs env).1, kv.2 = Json.str v →
      (detect kv.1 v).atLeastMedium = false := by
  induction env with
  | nil => intro kv hkv; cases hkv
  | cons e rest ih =>
    obtain ⟨k₀, v₀⟩ := e
    intro kv hkv heq
    match v₀ with
    | .null =>
      rcases List.mem_cons.mp (by simpa [templateEnvPairs] using hkv) with h1 | h1
      · rw [h1] at heq; cases heq
      · exact ih kv h1 heq
    | .bool b =>
      rcases List.mem_cons.mp (by simpa [templateEnvPairs] using hkv) with h1 | h1
      · rw [h1] at heq; cases heq
      · exact ih kv h1 heq
    | .num n =>
      rcases List.mem_cons.mp (by simpa [templateEnvPairs] using hkv) with h1 | h1
      · rw [h1] at heq; cases heq
      · exact ih kv h1 heq
    | .arr xs =>
      rcases List.mem_cons.mp (by simpa [templateEnvPairs] using hkv) with h1 | h1
      · rw [h1] at heq; cases heq
      · exact ih kv h1 heq
    | .obj fs =>
      rcases List.mem_cons.mp (by simpa [templateEnvPairs] using hkv) with h1 | h1
      · rw [h1] at heq; cases heq
      · exact ih kv h1 heq
    | .str s₀ =>
      by_cases hc : (detect k₀ s₀).atLeastMedium = true
      · rcases List.mem_cons.mp (by simpa [templateEnvPairs, hc] using hkv) with h1 | h1
        · rw [h1] at heq
          have : placeholderFor k₀ = v := by injection heq
          exact absurd this (placeholderFor_ne_secret hval)
        · exact ih kv h1 heq
      · rcases List.mem_cons.mp (by simpa [templateEnvPairs, hc] using hkv) with h1 | h1
        · rw [h1] at heq
          have hsv : s₀ = v := by injection heq
          rw [h1]
          subst hsv
          cases hd : (detect k₀ s₀).atLeastMedium
          · rfl
          · exact absurd hd hc
        · exact ih kv h1 heq

/-- C1 (amended): for every detected MCP server whose config's environment
map binds a key matching a high-confidence secret pattern to a
secret-shaped value, processing the servers with `scrub_secrets` enabled
writes that server's JSON file as the serialization of the templated
config, in which the key is bound to the placeholder `${KEY}` — a
non-secret string that embeds the environment-variable name — and in
which no environment entry classified at medium-or-higher confidence
retains the literal secret.  (The literal can survive in fields outside
the environment map, such as `args`: see the counterexample.) -/
theorem scrubbed_mcp_file_replaces_secret (servers : List DetectedMCPServer)
    (pkg : List String) (fs : OutFS) (server : DetectedMCPServer)
    (fields env : List (String × Json)) (k v : String)
    (hmem : server ∈ servers)
    (hnodup : (servers.map (fun s => s.name)).Nodup)
    (hcfg : server.config = .obj fields)
    (henv : lookupJson fields "env" = some (.obj env))
    (hk : lookupJson env k = some (.str v))
    (hkey : keyMatchesSecretPattern k = true)
    (hval : valueLooksSecret v = true) :
    (process_mcp_servers true servers pkg fs).1.fileContent
        (pkg ++ ["mcp", server.name ++ ".json"]) =
      some (Json.serialize (template_secrets_in_config server.config).1) ∧
    (template_secrets_in_config server.config).1 = .obj (templateFields fields).1 ∧
    lookupJson (templateFields fields).1 "env" =
      some (.obj (templateEnvPairs env).1) ∧
    lookupJson (templateEnvPairs env).1 k = some (.str (placeholderFor k)) ∧
    strContains (placeholderFor k) k = true ∧
    placeholderFor k ≠ v ∧
    (∀ kv ∈ (templateEnvPairs env).1, kv.2 = Json.str v →
      (detect kv.1 v).atLeastMedium = false) := by
  have hmed : (detect k v).atLeastMedium = true := by
    rw [detect_high hkey hval]
    rfl
  refine ⟨?_, ?_, ?_, ?_, ?_, ?_, ?_⟩
  · simpa using process_fold_content true pkg servers (fs, 0) server hmem hnodup
  · rw [hcfg]
    rfl
  · exact lookupJson_templateFields_env fields env henv
  · exact lookupJson_templateEnvPairs env k v hk hmed
  · exact strContains_placeholderFor k
  · exact placeholderFor_ne_secret hval
  · exact templateEnvPairs_no_secret_left env v hval

def leakConfig : Json :=
  .obj [("command", .str "npx"), ("args", .arr [.str "ghp_secret12345"]),
    ("env", .obj [("GITHUB_TOKEN", .str "ghp_secret12345")])]

def leakServer : DetectedMCPServer :=
  { name := "github", file_path := none, config := leakConfig,
    source := ".mcp.json", source_tool := "claude" }

/-- C1 counterexample: the config repeats the secret inside `args`; the
environment entry `GITHUB_TOKEN` matches a high-confidence pattern with a
secret-shaped value, yet the JSON file written under `mcp/` with
scrubbing enabled still contains the literal secret (carried by `args`,
which the templating transform passes through unchanged). -/
theorem scrubbed_mcp_file_retains_secret_counterexample :
    keyMatchesSecretPattern "GITHUB_TOKEN" = true ∧
      valueLooksSecret "ghp_secret12345" = true ∧
      strContains
        (((process_mcp_servers true [leakServer] ["out", "package-demo"]
              {}).1.fileContent
            (["out", "package-demo", "mcp", "github.json"])).getD "")
        "ghp_secret12345" = true := by
  refine ⟨?_, ?_, ?_⟩ <;> decide

theorem scrubbed_mcp_file_replaces_secret_witness :
    leakServer ∈ [leakServer] ∧
      (([leakServer].map (fun s => s.name)).Nodup) ∧
      leakServer.config =
        .obj [("command", .str "npx"), ("args", .arr [.str "ghp_secret12345"]),
          ("env", .obj [("GITHUB_TOKEN", .str "ghp_secret12345")])] ∧
      (process_mcp_servers true [leakServer] ["out", "package-demo"] {}).1.fileContent
          (["out", "package-demo", "mcp", "github.json"]) =
        some (Json.serialize (template_secrets_in_config leakServer.config).1) ∧
      lookupJson
          (templateEnvPairs [("GITHUB_TOKEN", .str "ghp_secret12345")]).1
          "GITHUB_TOKEN" =
        some (.str (placeholderFor "GITHUB_TOKEN")) :=
  ⟨List.mem_cons_self _ _, List.nodup_singleton _, rfl,
    ((scrubbed_mcp_file_replaces_secret [leakServer] ["out", "package-demo"] {}
      leakServer _ _ "GITHUB_TOKEN" "ghp_secret12345"
      (List.mem_cons_self _ _) (List.nodup_singleton _) rfl rfl rfl
      (by decide) (by decide)).1),
    ((scrubbed_mcp_file_replaces_secret [leakServer] ["out", "package-demo"] {}
      leakServer _ _ "GITHUB_TOKEN" "ghp_secret12345"
      (List.mem_cons_self _ _) (List.nodup_singleton _) rfl rfl rfl
      (by decide) (by decide)).2.2.2.1)⟩

/-! ## Component detector: filesystem environment

`ComponentDetector._detect_mcp_servers` and `_detect_memory_files`
interact with the filesystem through these queries.  `resolve` models
`Path.resolve()` (symlink chasing); `content` models a successful
`json.load` of the file (`none` covers unreadable files and malformed
JSON, both converted to warnings by the source); `rglob` returns the
project-relative component paths matched under the root.
-/

structure FS where
  pathExists : List String → Bool
  isDir : List String → Bool
  isFile : List String → Bool
  content : List String → Option Json
  readText : List String → Option String
  resolve : List String → List String
  listJsonFiles : List String → List String
  rglob : List String → String → List (List String)

structure DetectEnv where
  fs : FS
  home : List String
  pipResolver : Json → Json → Option String

/-- Embeds `Path.expanduser()`: a leading `~` component becomes the home
directory. -/
def expanduser (home : List String) (p : List String) : List String :=
  match p with
  | "~" :: rest => home ++ rest
  | _ => p

/-- Project-relative path rendering (`str(path.relative_to(root))`). -/
def relStr (p : List String) : String := String.intercalate "/" p

/-- Embeds `scope in ("project", "all")`. -/
def Scope.includesProject : String → Bool
  | "project" => true
  | "all" => true
  | _ => false

/-- Embeds `scope in ("global", "all")`. -/
def Scope.includesGlobal : String → Bool
  | "global" => true
  | "all" => true
  | _ => false

/-! ## Capability registry

Embedding of `devsync/ai_tools/capability_registry.py`: the fields the
modelled detector passes read (`tool_type.value`, the MCP config paths
and JSON key, the memory-file name), for all 23 registry entries in dict
insertion order.  The `AIToolType` enum values live in
`devsync/core/models.py`, which is not under `src/`; the lowercase value
strings are those the unit tests observe (`cursor`, `claude`, `roo`,
`copilot`, `devsync`, ...).
-/

structure IDECapability where
  tool_value : String
  tool_name : String
  mcp_config_path : Option String := none
  mcp_project_config_path : Option String := none
  memory_file_name : Option String := none
  mcp_servers_json_key : String := "mcpServers"
deriving Repr, DecidableEq

def CAPABILITY_REGISTRY : List IDECapability :=
  [{ tool_value := "cursor", tool_name := "Cursor",
     mcp_config_path := some "~/.cursor/mcp.json",
     mcp_project_config_path := some ".cursor/mcp.json" },
   { tool_value := "claude", tool_name := "Claude Code",
     mcp_config_path := some "~/.claude/settings.json",
     mcp_project_config_path := some ".claude/settings.local.json",
     memory_file_name := some "CLAUDE.md" },
   { tool_value := "windsurf", tool_name := "Windsurf",
     mcp_config_path := some "~/.codeium/windsurf/mcp_config.json" },
   { tool_value := "kiro", tool_name := "Kiro" },
   { tool_value := "cline", tool_name := "Cline" },
   { tool_value := "roo", tool_name := "Roo Code",
     mcp_project_config_path := some ".roo/mcp.json" },
   { tool_value := "codex", tool_name := "OpenAI Codex CLI" },
   { tool_value := "gemini", tool_name := "Gemini CLI",
     mcp_config_path := some "~/.gemini/settings.json" },
   { tool_value := "antigravity", tool_name := "Antigravity IDE",
     mcp_project_config_path := some ".mcp.json" },
   { tool_value := "amazonq", tool_name := "Amazon Q",
     mcp_project_config_path := some ".amazonq/mcp.json" },
   { tool_value := "jetbrains", tool_name := "JetBrains AI",
     mcp_project_config_path := some ".aiassistant/mcp.json" },
   { tool_value := "junie", tool_name := "Junie" },
   { tool_value := "zed", tool_name := "Zed",
     mcp_project_config_path := some ".zed/settings.json" },
   { tool_value := "continue", tool_name := "Continue.dev",
     mcp_project_config_path := some ".continue/config.json" },
   { tool_value := "aider", tool_name := "Aider" },
   { tool_value := "trae", tool_name := "Trae",
     mcp_project_config_path := some ".mcp.json" },
   { tool_value := "augment", tool_name := "Augment",
     mcp_project_config_path := some ".augment/mcp.json" },
   { tool_value := "tabnine", tool_name := "Tabnine",
     mcp_project_config_path := some ".tabnine/mcp.json" },
   { tool_value := "openhands", tool_name := "OpenHands",
     mcp_project_config_path := some ".openhands/mcp.json" },
   { tool_value := "amp", tool_name := "Amp" },
   { tool_value := "opencode", tool_name := "OpenCode" },
   { tool_value := "anteroom", tool_name := "Anteroom" },
   { tool_value := "copilot", tool_name := "GitHub Copilot",
     mcp_config_path := some "~/.vscode/mcp.json",
     mcp_project_config_path := some ".vscode/mcp.json",
     mcp_servers_json_key := "servers" }]

/-- Embeds `ComponentDetector._get_registry_entries`, filtered case-insensitively
by `tool_filter` (absent or empty filters keep everything). -/
def get_registry_entries (tool_filter : Option (List String)) : List IDECapability :=
  CAPABILITY_REGISTRY.filter (fun cap =>
    match tool_filter with
    | none => true
    | some [] => true
    | some tf => (tf.map lower).contains cap.tool_value)

/-! ## MCP server detection (`_detect_mcp_servers`) -/

/-- Embeds `_resolve_pip_package`: `None` for a falsy command, else the
best-effort external resolution (abstract in the model; the source
guarantees only that it never raises). -/
def resolve_pip_package (env : DetectEnv) (command args : Json) : Option String :=
  if jsonFalsy command then none else env.pipResolver command args

/-- One `DetectedMCPServer` record per entry of the server map; a
malformed entry (a non-dict server config, a non-dict `env`) raises in
the source inside the per-file `try`, discarding the remaining entries of
that file but keeping the records already appended. -/
def mk_server_records (env : DetectEnv) (tool source : String)
    (config_path : List String) : List (String × Json) → List DetectedMCPServer
  | [] => []
  | (server_name, server_config) :: rest =>
    match server_config with
    | .obj fields =>
      match jsonGetD fields "env" (.obj []) with
      | .obj env_pairs =>
        { name := server_name, file_path := some config_path,
          config := server_config, source := source,
          env_vars := env_pairs.map Prod.fst,
          pip_package := resolve_pip_package env
            (jsonGetD fields "command" (.str ""))
            (jsonGetD fields "args" (.arr [])),
          source_tool := tool } :: mk_server_records env tool source config_path rest
      | _ => []
    | _ => []

/-- Extract the server map under the tool's JSON key and emit one record
per entry (`config_data.get(json_key, {})`); a non-object payload behaves
like the exception path of the source: no records. -/
def parse_mcp_config (env : DetectEnv) (cap : IDECapability)
    (config_path : List String) (source_label : String) (j : Json) :
    List DetectedMCPServer :=
  match j with
  | .obj config_fields =>
    match jsonGetD config_fields cap.mcp_servers_json_key (.obj []) with
    | .obj server_map =>
      mk_server_records env cap.tool_value source_label config_path server_map
    | _ => []
  | _ => []

/-- The `paths_to_check` list for one registry entry: the project path
when the scope includes the project, then the expanded global path when
the scope includes global scope — unless the rendered global path fails
the `str(expanded).startswith(str(Path.home()))` guard, in which case the
source executes `continue` and the whole entry (project path included)
contributes nothing. -/
def mcp_entry_paths (env : DetectEnv) (project_root : List String) (scope : String)
    (cap : IDECapability) : List (List String × String) :=
  let projPart : List (List String × String) :=
    match cap.mcp_project_config_path with
    | some p => if Scope.includesProject scope then [(project_root ++ splitPath p, p)] else []
    | none => []
  match cap.mcp_config_path with
  | some g =>
    if Scope.includesGlobal scope then
      let expanded := env.fs.resolve (expanduser env.home (splitPath g))
      if List.isPrefixOf (pathStr env.home).data (pathStr expanded).data then
        projPart ++ [(expanded, g)]
      else []
    else projPart
  | none => projPart

/-- The body of the `for config_path, source_label in paths_to_check`
loop: skip paths whose resolution was already seen, skip missing files,
otherwise record the resolved path as seen and parse (a `none` content is
the warning path: seen, but no records). -/
def process_config_path (env : DetectEnv) (cap : IDECapability)
    (st : List DetectedMCPServer × List (List String))
    (pq : List String × String) : List DetectedMCPServer × List (List String) :=
  let resolved := env.fs.resolve pq.1
  if listHasPath st.2 resolved then st
  else if !(env.fs.pathExists pq.1) then st
  else
    let seen := resolved :: st.2
    match env.fs.content pq.1 with
    | none => (st.1, seen)
    | some j => (st.1 ++ parse_mcp_config env cap pq.1 pq.2 j, seen)

def process_registry_entry (env : DetectEnv) (project_root : List String)
    (scope : String) (st : List DetectedMCPServer × List (List String))
    (cap : IDECapability) : List DetectedMCPServer × List (List String) :=
  (mcp_entry_paths env project_root scope cap).foldl (process_config_path env cap) st

/-- The registry half of `_detect_mcp_servers`: fold the entries over the
shared `(servers, seen_paths)` state. -/
def registry_mcp_loop (env : DetectEnv) (project_root : List String) (scope : String)
    (entries : List IDECapability)
    (st : List DetectedMCPServer × List (List String)) :
    List DetectedMCPServer × List (List String) :=
  entries.foldl (process_registry_entry env project_root scope) st

/-- One fallback record per loose JSON file of `.devsync/mcp` (each file
is one server config); the fallback loop does not consult the seen-path
set. -/
def fallback_records (env : DetectEnv) (mcp_dir : List String) :
    List String → List DetectedMCPServer
  | [] => []
  | fname :: rest =>
    let tail := fallback_records env mcp_dir rest
    match env.fs.content (mcp_dir ++ [fname]) with
    | some server_config =>
      match server_config with
      | .obj fields =>
        match jsonGetD fields "env" (.obj []) with
        | .obj env_pairs =>
          { name := stemOf fname, file_path := some (mcp_dir ++ [fname]),
            config := server_config,
            source := ".devsync/mcp/" ++ fname,
            env_vars := env_pairs.map Prod.fst,
            pip_package := resolve_pip_package env
              (jsonGetD fields "command" (.str ""))
              (jsonGetD fields "args" (.arr [])),
            source_tool := "devsync" } :: tail
        | _ => tail
      | _ => tail
    | none => tail

/-- The tool-agnostic fallback scan over `.devsync/mcp`. -/
def fallback_mcp_servers (env : DetectEnv) (project_root : List String) :
    List DetectedMCPServer :=
  let mcp_dir := project_root ++ [".devsync", "mcp"]
  if env.fs.pathExists mcp_dir && env.fs.isDir mcp_dir then
    fallback_records env mcp_dir (env.fs.listJsonFiles mcp_dir)
  else []

/-- Embeds `_detect_mcp_servers` over an explicit entry list: registry loop
first, fallback directory second. -/
def detect_mcp_servers_from (env : DetectEnv) (project_root : List String)
    (scope : String) (entries : List IDECapability) : List DetectedMCPServer :=
  (registry_mcp_loop env project_root scope entries ([], [])).1 ++
    fallback_mcp_servers env project_root

/-- Embeds `ComponentDetector._detect_mcp_servers`. -/
def detect_mcp_servers (env : DetectEnv) (project_root : List String)
    (scope : String) (tool_filter : Option (List String)) : List DetectedMCPServer :=
  detect_mcp_servers_from env project_root scope (get_registry_entries tool_filter)

/-! ## C4: the home-directory guard on global MCP paths -/

theorem mcp_entry_paths_guard_failure (env : DetectEnv) (project_root : List String)
    (scope : String) (cap : IDECapability) (g : String)
    (hg : cap.mcp_config_path = some g)
    (hs : Scope.includesGlobal scope = true)
    (hguard : List.isPrefixOf (pathStr env.home).data
        (pathStr (env.fs.resolve (expanduser env.home (splitPath g)))).data = false) :
    mcp_entry_paths env project_root scope cap = [] := by
  unfold mcp_entry_paths
  rw [hg]
  simp [hs, hguard]

/-- C4 (amended): a registry entry whose expanded and resolved global MCP
path fails the source's string-prefix guard
(`str(expanded).startswith(str(home))`) is skipped entirely — detection
over a registry containing it equals detection over the registry without
it, so the file is never opened and the pass completes.  The guard
compares rendered path strings, not path components, so it is not
equivalent to "lies outside the home directory": a resolved path outside
the home directory whose rendered string extends the home string without
a separator (e.g. `/home/ux/...` under home `/home/u`) passes the guard
and is opened — see the counterexample. -/
theorem global_path_failing_home_guard_skips_entry (env : DetectEnv)
    (project_root : List String) (scope : String)
    (entries₁ entries₂ : List IDECapability) (cap : IDECapability) (g : String)
    (hg : cap.mcp_config_path = some g)
    (hs : Scope.includesGlobal scope = true)
    (hguard : List.isPrefixOf (pathStr env.home).data
        (pathStr (env.fs.resolve (expanduser env.home (splitPath g)))).data = false) :
    detect_mcp_servers_from env project_root scope (entries₁ ++ cap :: entries₂) =
      detect_mcp_servers_from env project_root scope (entries₁ ++ entries₂) := by
  have hid : ∀ st, process_registry_entry env project_root scope st cap = st := by
    intro st
    unfold process_registry_entry
    rw [mcp_entry_paths_guard_failure env project_root scope cap g hg hs hguard]
    rfl
  unfold detect_mcp_servers_from registry_mcp_loop
  rw [List.foldl_append, List.foldl_cons, hid, List.foldl_append]

def c4FS : FS :=
  { pathExists := fun p => decide (p = ["home", "ux", "cfg.json"])
    isDir := fun _ => false
    isFile := fun p => decide (p = ["home", "ux", "cfg.json"])
    content := fun p =>
      if p = ["home", "ux", "cfg.json"] then
        some (.obj [("mcpServers", .obj [("gh", .obj [("command", .str "npx")])])])
      else none
    readText := fun _ => none
    resolve := fun p =>
      if p = ["home", "u", ".cursor", "mcp.json"] then ["home", "ux", "cfg.json"] else p
    listJsonFiles := fun _ => []
    rglob := fun _ _ => [] }

def c4Env : DetectEnv :=
  { fs := c4FS, home := ["home", "u"], pipResolver := fun _ _ => none }

/-- C4 counterexample: `~/.cursor/mcp.json` resolves (through a symlink)
to `/home/ux/cfg.json`, which lies outside the home directory `/home/u`
as a path (`["home", "u"]` is not a component prefix), but whose rendered
string `/home/ux/cfg.json` extends the rendered home string `/home/u`, so
the guard passes and global detection opens and parses the file, emitting
its server record. -/
theorem path_outside_home_opened_counterexample :
    List.isPrefixOf ["home", "u"] ["home", "ux", "cfg.json"] = false ∧
      c4Env.fs.resolve (expanduser c4Env.home (splitPath "~/.cursor/mcp.json")) =
        ["home", "ux", "cfg.json"] ∧
      (detect_mcp_servers c4Env ["proj"] "global" none).map
          (fun s => (s.source_tool, s.name, s.file_path)) =
        [("cursor", "gh", some ["home", "ux", "cfg.json"])] := by
  refine ⟨by decide, by decide, by decide⟩

def c4wFS : FS :=
  { pathExists := fun p => decide (p = ["zzz", "secret.json"])
    isDir := fun _ => false
    isFile := fun p => decide (p = ["zzz", "secret.json"])
    content := fun p =>
      if p = ["zzz", "secret.json"] then
        some (.obj [("mcpServers", .obj [("evil", .obj [("command", .str "sh")])])])
      else none
    readText := fun _ => none
    resolve := fun p =>
      if p = ["home", "u", "x.json"] then ["zzz", "secret.json"] else p
    listJsonFiles := fun _ => []
    rglob := fun _ _ => [] }

def c4wEnv : DetectEnv :=
  { fs := c4wFS, home := ["home", "u"], pipResolver := fun _ _ => none }

def c4wBadCap : IDECapability :=
  { tool_value := "cursor", tool_name := "Cursor", mcp_config_path := some "~/x.json" }

theorem global_path_failing_home_guard_skips_entry_witness :
    c4wBadCap.mcp_config_path = some "~/x.json" ∧
      Scope.includesGlobal "global" = true ∧
      List.isPrefixOf (pathStr c4wEnv.home).data
        (pathStr (c4wEnv.fs.resolve (expanduser c4wEnv.home (splitPath "~/x.json")))).data = false ∧
      detect_mcp_servers_from c4wEnv ["proj"] "global" ([] ++ c4wBadCap :: []) =
        detect_mcp_servers_from c4wEnv ["proj"] "global" ([] ++ []) :=
  ⟨rfl, rfl, by decide,
    global_path_failing_home_guard_skips_entry c4wEnv ["proj"] "global" [] []
      c4wBadCap "~/x.json" rfl rfl (by decide)⟩

/-! ## C3: seen-path de-duplication -/

theorem listHasPath_eq_true_iff (l : List (List String)) (p : List String) :
    listHasPath l p = true ↔ p ∈ l := by
  induction l with
  | nil => simp [listHasPath]
  | cons d rest ih =>
    simp only [listHasPath, Bool.or_eq_true, decide_eq_true_eq, ih, List.mem_cons]
    constructor
    · rintro (h | h)
      · exact Or.inl h.symm
      · exact Or.inr h
    · rintro (h | h)
      · exact Or.inl h.symm
      · exact Or.inr h

theorem process_config_path_skip_seen (env : DetectEnv) (cap : IDECapability)
    (st : List DetectedMCPServer × List (List String)) (pq : List String × String)
    (h : listHasPath st.2 (env.fs.resolve pq.1) = true) :
    process_config_path env cap st pq = st := by
  unfold process_config_path
  simp [h]

theorem process_config_path_missing (env : DetectEnv) (cap : IDECapability)
    (st : List DetectedMCPServer × List (List String)) (pq : List String × String)
    (h1 : listHasPath st.2 (env.fs.resolve pq.1) = false)
    (h2 : env.fs.pathExists pq.1 = false) :
    process_config_path env cap st pq = st := by
  unfold process_config_path
  simp [h1, h2]

theorem process_config_path_parse (env : DetectEnv) (cap : IDECapability)
    (st : List DetectedMCPServer × List (List String)) (pq : List String × String)
    (h1 : listHasPath st.2 (env.fs.resolve pq.1) = false)
    (h2 : env.fs.pathExists pq.1 = true) :
    process_config_path env cap st pq =
      (st.1 ++ (match env.fs.content pq.1 with
        | some j => parse_mcp_config env cap pq.1 pq.2 j
        | none => []),
       env.fs.resolve pq.1 :: st.2) := by
  unfold process_config_path
  rcases hc : env.fs.content pq.1 with _ | j
  · simp [h1, h2, hc]
  · simp [h1, h2, hc]

theorem process_config_path_seen_nodup (env : DetectEnv) (cap : IDECapability)
    (st : List DetectedMCPServer × List (List String)) (pq : List String × String)
    (h : st.2.Nodup) : (process_config_path env cap st pq).2.Nodup := by
  by_cases hseen : listHasPath st.2 (env.fs.resolve pq.1) = true
  · rw [process_config_path_skip_seen env cap st pq hseen]
    exact h
  · have hseen2 : listHasPath st.2 (env.fs.resolve pq.1) = false := by
      cases hb : listHasPath st.2 (env.fs.resolve pq.1)
      · rfl
      · exact absurd hb hseen
    have hnot : env.fs.resolve pq.1 ∉ st.2 := fun hm =>
      hseen ((listHasPath_eq_true_iff _ _).mpr hm)
    by_cases hex : env.fs.pathExists pq.1 = true
    · rw [process_config_path_parse env cap st pq hseen2 hex]
      exact List.nodup_cons.mpr ⟨hnot, h⟩
    · have hex2 : env.fs.pathExists pq.1 = false := by
        cases hb : env.fs.pathExists pq.1
        · rfl
        · exact absurd hb hex
      rw [process_config_path_missing env cap st pq hseen2 hex2]
      exact h

theorem process_registry_entry_seen_nodup (env : DetectEnv) (root : List String)
    (scope : String) (st : List DetectedMCPServer × List (List String))
    (cap : IDECapability) (h : st.2.Nodup) :
    (process_registry_entry env root scope st cap).2.Nodup := by
  unfold process_registry_entry
  generalize mcp_entry_paths env root scope cap = paths
  induction paths generalizing st with
  | nil => exact h
  | cons pq rest ih =>
    rw [List.foldl_cons]
    exact ih _ (process_config_path_seen_nodup env cap st pq h)

theorem registry_mcp_loop_seen_nodup (env : DetectEnv) (root : List String)
    (scope : String) (entries : List IDECapability)
    (st : List DetectedMCPServer × List (List String)) (h : st.2.Nodup) :
    (registry_mcp_loop env root scope entries st).2.Nodup := by
  unfold registry_mcp_loop
  induction entries generalizing st with
  | nil => exact h
  | cons cap rest ih =>
    rw [List.foldl_cons]
    exact ih _ (process_registry_entry_seen_nodup env root scope st cap h)

set_option maxRecDepth 4000 in
theorem mcp_entry_paths_all (env : DetectEnv) (root : List String)
    (cap : IDECapability) (p g : String)
    (hp : cap.mcp_project_config_path = some p)
    (hg : cap.mcp_config_path = some g)
    (hguard : List.isPrefixOf (pathStr env.home).data
        (pathStr (env.fs.resolve (expanduser env.home (splitPath g)))).data = true) :
    mcp_entry_paths env root "all" cap =
      [(root ++ splitPath p, p),
       (env.fs.resolve (expanduser env.home (splitPath g)), g)] := by
  unfold mcp_entry_paths
  rw [hp, hg]
  simp [Scope.includesProject, Scope.includesGlobal, hguard]

/-- C3 (amended): the seen-path set de-duplicates the registry loop — the
loop's seen list (one entry per file actually opened) never repeats a
resolved path, and a registry entry whose project and global config paths
resolve to the identical real path under scope `all` parses the file
exactly once, from the project path, so each declared server yields
exactly one record, with the registry's project-path provenance.  The
fallback `.devsync/mcp` scan, however, does not consult the seen set: a
fallback file resolving to an already-parsed registry config is parsed
and emitted a second time under the `devsync` provenance — see the
counterexample. -/
theorem registry_loop_dedups_by_resolved_path (env : DetectEnv) (root : List String)
    (scope : String) (entries : List IDECapability) (cap : IDECapability)
    (p g : String)
    (hp : cap.mcp_project_config_path = some p)
    (hg : cap.mcp_config_path = some g)
    (hguard : List.isPrefixOf (pathStr env.home).data
        (pathStr (env.fs.resolve (expanduser env.home (splitPath g)))).data = true)
    (hres : env.fs.resolve (root ++ splitPath p) =
      env.fs.resolve (env.fs.resolve (expanduser env.home (splitPath g))))
    (hex : env.fs.pathExists (root ++ splitPath p) = true) :
    (registry_mcp_loop env root scope entries ([], [])).2.Nodup ∧
      (registry_mcp_loop env root "all" [cap] ([], [])).1 =
        (match env.fs.content (root ++ splitPath p) with
          | some j => parse_mcp_config env cap (root ++ splitPath p) p j
          | none => []) := by
  constructor
  · exact registry_mcp_loop_seen_nodup env root scope entries ([], []) List.nodup_nil
  · unfold registry_mcp_loop
    rw [List.foldl_cons, List.foldl_nil]
    unfold process_registry_entry
    rw [mcp_entry_paths_all env root cap p g hp hg hguard]
    rw [List.foldl_cons, List.foldl_cons, List.foldl_nil]
    rw [process_config_path_parse env cap ([], []) (root ++ splitPath p, p)
      (by rfl) hex]
    rw [process_config_path_skip_seen env cap _ _ ?hseen]
    case hseen =>
      simp only [listHasPath]
      rw [← hres]
      simp
    simp

def c3FS : FS :=
  { pathExists := fun p => decide (p = ["proj", ".mcp.json"] ∨
      p = ["proj", ".devsync", "mcp"] ∨ p = ["proj", ".devsync", "mcp", "link.json"])
    isDir := fun p => decide (p = ["proj", ".devsync", "mcp"])
    isFile := fun p => decide (p = ["proj", ".mcp.json"] ∨
      p = ["proj", ".devsync", "mcp", "link.json"])
    content := fun p =>
      if p = ["proj", ".mcp.json"] ∨ p = ["proj", ".devsync", "mcp", "link.json"] then
        some (.obj [("mcpServers", .obj [("gh", .obj [("command", .str "npx")])])])
      else none
    readText := fun _ => none
    resolve := fun p =>
      if p = ["proj", ".devsync", "mcp", "link.json"] then ["proj", ".mcp.json"] else p
    listJsonFiles := fun p =>
      if p = ["proj", ".devsync", "mcp"] then ["link.json"] else []
    rglob := fun _ _ => [] }

def c3Env : DetectEnv :=
  { fs := c3FS, home := ["home", "u"], pipResolver := fun _ _ => none }

/-- C3 counterexample: `.devsync/mcp/link.json` is a symlink to the
project's `.mcp.json`, which the registry loop already parsed for
Antigravity.  The fallback scan parses the same real file again and emits
a second record under the `devsync` provenance: the config file is parsed
and emitted twice, and the registry-declared provenance does not win. -/
theorem mcp_fallback_not_deduplicated_counterexample :
    (detect_mcp_servers c3Env ["proj"] "project" none).map
        (fun s => (s.source_tool, Option.map c3Env.fs.resolve s.file_path)) =
      [("antigravity", some ["proj", ".mcp.json"]),
       ("devsync", some ["proj", ".mcp.json"])] := by
  decide

def c3wFS : FS :=
  { pathExists := fun p => decide (p = ["proj", ".mcp.json"])
    isDir := fun _ => false
    isFile := fun p => decide (p = ["proj", ".mcp.json"])
    content := fun p =>
      if p = ["proj", ".mcp.json"] then
        some (.obj [("mcpServers", .obj [("gh", .obj [("command", .str "npx")])])])
      else none
    readText := fun _ => none
    resolve := fun p =>
      if p = ["proj", ".mcp.json"] then ["home", "u", "g", "mcp.json"] else p
    listJsonFiles := fun _ => []
    rglob := fun _ _ => [] }

def c3wEnv : DetectEnv :=
  { fs := c3wFS, home := ["home", "u"], pipResolver := fun _ _ => none }

def c3wCap : IDECapability :=
  { tool_value := "antigravity", tool_name := "Antigravity IDE",
    mcp_config_path := some "~/g/mcp.json",
    mcp_project_config_path := some ".mcp.json" }

theorem registry_loop_dedups_by_resolved_path_witness :
    c3wCap.mcp_project_config_path = some ".mcp.json" ∧
      c3wEnv.fs.resolve (["proj"] ++ splitPath ".mcp.json") =
        c3wEnv.fs.resolve (c3wEnv.fs.resolve (expanduser c3wEnv.home (splitPath "~/g/mcp.json"))) ∧
      c3wEnv.fs.pathExists (["proj"] ++ splitPath ".mcp.json") = true ∧
      (registry_mcp_loop c3wEnv ["proj"] "all" CAPABILITY_REGISTRY ([], [])).2.Nodup ∧
      (registry_mcp_loop c3wEnv ["proj"] "all" [c3wCap] ([], [])).1 =
        (match c3wEnv.fs.content (["proj"] ++ splitPath ".mcp.json") with
          | some j => parse_mcp_config c3wEnv c3wCap (["proj"] ++ splitPath ".mcp.json") ".mcp.json" j
          | none => []) :=
  ⟨rfl, by decide, by decide,
    (registry_loop_dedups_by_resolved_path c3wEnv ["proj"] "all" CAPABILITY_REGISTRY
      c3wCap ".mcp.json" "~/g/mcp.json" rfl rfl (by decide) (by decide) (by decide)).1,
    (registry_loop_dedups_by_resolved_path c3wEnv ["proj"] "all" CAPABILITY_REGISTRY
      c3wCap ".mcp.json" "~/g/mcp.json" rfl rfl (by decide) (by decide) (by decide)).2⟩

/-! ## C10: first registry entry owns a shared project config file -/

/-- Every record of the state maps (through resolution) into the seen
set. -/
def recordsResolveSeen (env : DetectEnv)
    (st : List DetectedMCPServer × List (List String)) : Prop :=
  ∀ r ∈ st.1, ∀ q, r.file_path = some q → env.fs.resolve q ∈ st.2

/-- All records resolving to `R` carry the provenance `(T, src)`. -/
def ownerProp (env : DetectEnv) (R : List String) (T src : String)
    (l : List DetectedMCPServer) : Prop :=
  ∀ r ∈ l, ∀ q, r.file_path = some q → env.fs.resolve q = R →
    r.source_tool = T ∧ r.source = src

theorem mk_server_records_fields (env : DetectEnv) (tool src : String)
    (path : List String) (l : List (String × Json)) :
    ∀ r ∈ mk_server_records env tool src path l,
      r.file_path = some path ∧ r.source_tool = tool ∧ r.source = src := by
  induction l with
  | nil => intro r hr; cases hr
  | cons kv rest ih =>
    obtain ⟨n, cfg⟩ := kv
    intro r hr
    match cfg with
    | .null => cases hr
    | .bool b => cases hr
    | .num m => cases hr
    | .str s => cases hr
    | .arr xs => cases hr
    | .obj fields =>
      rcases he : jsonGetD fields "env" (.obj []) with _ | _ | _ | _ | _ | env_pairs
      all_goals rw [mk_server_records, he] at hr
      case obj =>
        rcases List.mem_cons.mp hr with h1 | h1
        · rw [h1]
          exact ⟨rfl, rfl, rfl⟩
        · exact ih r h1
      all_goals cases hr

theorem parse_mcp_config_fields (env : DetectEnv) (cap : IDECapability)
    (path : List String) (src : String) (j : Json) :
    ∀ r ∈ parse_mcp_config env cap path src j,
      r.file_path = some path ∧ r.source_tool = cap.tool_value ∧ r.source = src := by
  intro r hr
  match j with
  | .null => cases hr
  | .bool b => cases hr
  | .num m => cases hr
  | .str s => cases hr
  | .arr xs => cases hr
  | .obj config_fields =>
    rcases hm : jsonGetD config_fields cap.mcp_servers_json_key (.obj []) with
      _ | _ | _ | _ | _ | server_map
    all_goals rw [parse_mcp_config, hm] at hr
    case obj => exact mk_server_records_fields env cap.tool_value src path server_map r hr
    all_goals cases hr

theorem bool_eq_false_of_ne_true {b : Bool} (h : ¬ b = true) : b = false := by
  cases b
  · rfl
  · exact absurd rfl h

theorem process_config_path_invariants (env : DetectEnv) (cap : IDECapability)
    (st : List DetectedMCPServer × List (List String)) (pq : List String × String)
    (R : List String) (T src : String)
    (hseen : recordsResolveSeen env st)
    (hR : R ∈ st.2) (hown : ownerProp env R T src st.1) :
    recordsResolveSeen env (process_config_path env cap st pq) ∧
      R ∈ (process_config_path env cap st pq).2 ∧
      ownerProp env R T src (process_config_path env cap st pq).1 := by
  by_cases hs : listHasPath st.2 (env.fs.resolve pq.1) = true
  · rw [process_config_path_skip_seen env cap st pq hs]
    exact ⟨hseen, hR, hown⟩
  · have hs2 := bool_eq_false_of_ne_true hs
    have hnotseen : env.fs.resolve pq.1 ∉ st.2 := fun hm =>
      hs ((listHasPath_eq_true_iff _ _).mpr hm)
    by_cases hex : env.fs.pathExists pq.1 = true
    · rw [process_config_path_parse env cap st pq hs2 hex]
      refine ⟨?_, List.mem_cons_of_mem _ hR, ?_⟩
      · intro r hr q hq
        rcases List.mem_append.mp hr with h1 | h1
        · exact List.mem_cons_of_mem _ (hseen r h1 q hq)
        · rcases hc : env.fs.content pq.1 with _ | j
          · rw [hc] at h1
            cases h1
          · rw [hc] at h1
            have hf := (parse_mcp_config_fields env cap pq.1 pq.2 j r h1).1
            rw [hf] at hq
            have : q = pq.1 := by
              injection hq with hinj
              exact hinj.symm
            rw [this]
            exact List.mem_cons_self _ _
      · intro r hr q hq hq2
        rcases List.mem_append.mp hr with h1 | h1
        · exact hown r h1 q hq hq2
        · rcases hc : env.fs.content pq.1 with _ | j
          · rw [hc] at h1
            cases h1
          · rw [hc] at h1
            have hf := (parse_mcp_config_fields env cap pq.1 pq.2 j r h1).1
            rw [hf] at hq
            have hq3 : q = pq.1 := by
              injection hq with hinj
              exact hinj.symm
            rw [hq3] at hq2
            exact absurd (hq2 ▸ hR) hnotseen
    · rw [process_config_path_missing env cap st pq hs2 (bool_eq_false_of_ne_true hex)]
      exact ⟨hseen, hR, hown⟩

theorem process_registry_entry_invariants (env : DetectEnv) (root : List String)
    (scope : String) (st : List DetectedMCPServer × List (List String))
    (cap : IDECapability) (R : List String) (T src : String)
    (hseen : recordsResolveSeen env st)
    (hR : R ∈ st.2) (hown : ownerProp env R T src st.1) :
    recordsResolveSeen env (process_registry_entry env root scope st cap) ∧
      R ∈ (process_registry_entry env root scope st cap).2 ∧
      ownerProp env R T src (process_registry_entry env root scope st cap).1 := by
  unfold process_registry_entry
  generalize mcp_entry_paths env root scope cap = paths
  induction paths generalizing st with
  | nil => exact ⟨hseen, hR, hown⟩
  | cons pq rest ih =>
    rw [List.foldl_cons]
    have h1 := process_config_path_invariants env cap st pq R T src hseen hR hown
    exact ih _ h1.1 h1.2.1 h1.2.2

theorem registry_mcp_loop_invariants (env : DetectEnv) (root : List String)
    (scope : String) (entries : List IDECapability)
    (st : List DetectedMCPServer × List (List String))
    (R : List String) (T src : String)
    (hseen : recordsResolveSeen env st)
    (hR : R ∈ st.2) (hown : ownerProp env R T src st.1) :
    recordsResolveSeen env (registry_mcp_loop env root scope entries st) ∧
      R ∈ (registry_mcp_loop env root scope entries st).2 ∧
      ownerProp env R T src (registry_mcp_loop env root scope entries st).1 := by
  unfold registry_mcp_loop
  induction entries generalizing st with
  | nil => exact ⟨hseen, hR, hown⟩
  | cons cap rest ih =>
    rw [List.foldl_cons]
    have h1 := process_registry_entry_invariants env root scope st cap R T src hseen hR hown
    exact ih _ h1.1 h1.2.1 h1.2.2

theorem process_config_path_resolveSeen (env : DetectEnv) (cap : IDECapability)
    (st : List DetectedMCPServer × List (List String)) (pq : List String × String)
    (hseen : recordsResolveSeen env st) :
    recordsResolveSeen env (process_config_path env cap st pq) := by
  by_cases hs : listHasPath st.2 (env.fs.resolve pq.1) = true
  · rw [process_config_path_skip_seen env cap st pq hs]
    exact hseen
  · have hs2 := bool_eq_false_of_ne_true hs
    by_cases hex : env.fs.pathExists pq.1 = true
    · rw [process_config_path_parse env cap st pq hs2 hex]
      intro r hr q hq
      rcases List.mem_append.mp hr with h1 | h1
      · exact List.mem_cons_of_mem _ (hseen r h1 q hq)
      · rcases hc : env.fs.content pq.1 with _ | j
        · rw [hc] at h1
          cases h1
        · rw [hc] at h1
          have hf := (parse_mcp_config_fields env cap pq.1 pq.2 j r h1).1
          rw [hf] at hq
          have : q = pq.1 := by
            injection hq with hinj
            exact hinj.symm
          rw [this]
          exact List.mem_cons_self _ _
    · rw [process_config_path_missing env cap st pq hs2 (bool_eq_false_of_ne_true hex)]
      exact hseen

theorem registry_mcp_loop_resolveSeen (env : DetectEnv) (root : List String)
    (scope : String) (entries : List IDECapability)
    (st : List DetectedMCPServer × List (List String))
    (hseen : recordsResolveSeen env st) :
    recordsResolveSeen env (registry_mcp_loop env root scope entries st) := by
  unfold registry_mcp_loop
  induction entries generalizing st with
  | nil => exact hseen
  | cons cap rest ih =>
    rw [List.foldl_cons]
    apply ih
    unfold process_registry_entry
    generalize mcp_entry_paths env root scope cap = paths
    induction paths generalizing st with
    | nil => exact hseen
    | cons pq prest pih =>
      rw [List.foldl_cons]
      exact pih _ (process_config_path_resolveSeen env cap st pq hseen)

/-- C10: when a registry entry declares a project-scope MCP config path
that resolves to an existing file no earlier registry entry has parsed
(for example Antigravity and Trae both declare `.mcp.json`, with
Antigravity iterated first), every MCPServer record in the registry loop
output that resolves to that file carries the first declarer's
`source_tool` and source label — later entries resolving to the same
file contribute zero records from it. -/
theorem first_entry_owns_shared_project_config (env : DetectEnv)
    (root : List String) (scope : String)
    (entries₁ entries₂ : List IDECapability) (cap : IDECapability) (p : String)
    (hp : cap.mcp_project_config_path = some p)
    (hg : cap.mcp_config_path = none)
    (hs : Scope.includesProject scope = true)
    (hex : env.fs.pathExists (root ++ splitPath p) = true)
    (hnew : env.fs.resolve (root ++ splitPath p) ∉
      (registry_mcp_loop env root scope entries₁ ([], [])).2) :
    ∀ r ∈ (registry_mcp_loop env root scope (entries₁ ++ cap :: entries₂) ([], [])).1,
      ∀ q, r.file_path = some q →
        env.fs.resolve q = env.fs.resolve (root ++ splitPath p) →
        r.source_tool = cap.tool_value ∧ r.source = p := by
  set R := env.fs.resolve (root ++ splitPath p) with hRdef
  have hinit : recordsResolveSeen env (([], []) :
      List DetectedMCPServer × List (List String)) := by
    intro r hr
    cases hr
  set st1 := registry_mcp_loop env root scope entries₁ ([], []) with hst1
  have hseen1 : recordsResolveSeen env st1 :=
    registry_mcp_loop_resolveSeen env root scope entries₁ ([], []) hinit
  have hown1 : ownerProp env R cap.tool_value p st1.1 := by
    intro r hr q hq hq2
    exact absurd (hq2 ▸ hseen1 r hr q hq) hnew
  have hpaths : mcp_entry_paths env root scope cap = [(root ++ splitPath p, p)] := by
    unfold mcp_entry_paths
    rw [hp, hg]
    simp [hs]
  have hentry : process_registry_entry env root scope st1 cap =
      (st1.1 ++ (match env.fs.content (root ++ splitPath p) with
        | some j => parse_mcp_config env cap (root ++ splitPath p) p j
        | none => []),
       R :: st1.2) := by
    unfold process_registry_entry
    rw [hpaths, List.foldl_cons, List.foldl_nil]
    apply process_config_path_parse
    · exact bool_eq_false_of_ne_true (fun hm =>
        hnew ((listHasPath_eq_true_iff _ _).mp hm))
    · exact hex
  have hseen2 : recordsResolveSeen env (process_registry_entry env root scope st1 cap) := by
    rw [hentry]
    intro r hr q hq
    rcases List.mem_append.mp hr with h1 | h1
    · exact List.mem_cons_of_mem _ (hseen1 r h1 q hq)
    · rcases hc : env.fs.content (root ++ splitPath p) with _ | j
      · rw [hc] at h1
        cases h1
      · rw [hc] at h1
        have hf := (parse_mcp_config_fields env cap (root ++ splitPath p) p j r h1).1
        rw [hf] at hq
        have : q = root ++ splitPath p := by
          injection hq with hinj
          exact hinj.symm
        rw [this]
        exact List.mem_cons_self _ _
  have hR2 : R ∈ (process_registry_entry env root scope st1 cap).2 := by
    rw [hentry]
    exact List.mem_cons_self _ _
  have hown2 : ownerProp env R cap.tool_value p
      (process_registry_entry env root scope st1 cap).1 := by
    rw [hentry]
    intro r hr q hq hq2
    rcases List.mem_append.mp hr with h1 | h1
    · exact hown1 r h1 q hq hq2
    · rcases hc : env.fs.content (root ++ splitPath p) with _ | j
      · rw [hc] at h1
        cases h1
      · rw [hc] at h1
        have hf := parse_mcp_config_fields env cap (root ++ splitPath p) p j r h1
        exact ⟨hf.2.1, hf.2.2⟩
  have hfinal := registry_mcp_loop_invariants env root scope entries₂
    (process_registry_entry env root scope st1 cap) R cap.tool_value p
    hseen2 hR2 hown2
  intro r hr q hq hq2
  have hsplit : registry_mcp_loop env root scope (entries₁ ++ cap :: entries₂) ([], []) =
      registry_mcp_loop env root scope entries₂
        (process_registry_entry env root scope st1 cap) := by
    unfold registry_mcp_loop
    rw [List.foldl_append, List.foldl_cons, hst1]
    rfl
  rw [hsplit] at hr
  exact hfinal.2.2 r hr q hq hq2

def c10FS : FS :=
  { pathExists := fun p => decide (p = ["proj", ".mcp.json"])
    isDir := fun _ => false
    isFile := fun p => decide (p = ["proj", ".mcp.json"])
    content := fun p =>
      if p = ["proj", ".mcp.json"] then
        some (.obj [("mcpServers", .obj [("gh", .obj [("command", .str "npx")])])])
      else none
    readText := fun _ => none
    resolve := fun p => p
    listJsonFiles := fun _ => []
    rglob := fun _ _ => [] }

def c10Env : DetectEnv :=
  { fs := c10FS, home := ["home", "u"], pipResolver := fun _ _ => none }

def antigravityCap : IDECapability :=
  { tool_value := "antigravity", tool_name := "Antigravity IDE",
    mcp_project_config_path := some ".mcp.json" }

def c10Earlier : List IDECapability := CAPABILITY_REGISTRY.take 8

def c10Later : List IDECapability := CAPABILITY_REGISTRY.drop 9

theorem first_entry_owns_shared_project_config_witness :
    c10Earlier ++ antigravityCap :: c10Later = CAPABILITY_REGISTRY ∧
      (∀ r ∈ (registry_mcp_loop c10Env ["proj"] "project"
            (c10Earlier ++ antigravityCap :: c10Later) ([], [])).1,
        ∀ q, r.file_path = some q →
          c10Env.fs.resolve q = c10Env.fs.resolve (["proj"] ++ splitPath ".mcp.json") →
          r.source_tool = antigravityCap.tool_value ∧ r.source = ".mcp.json") ∧
      (detect_mcp_servers c10Env ["proj"] "project" none).map
          (fun s => (s.source_tool, s.name)) = [("antigravity", "gh")] :=
  ⟨by decide,
    first_entry_owns_shared_project_config c10Env ["proj"] "project"
      c10Earlier c10Later antigravityCap ".mcp.json" rfl rfl rfl (by decide) (by decide),
    by decide⟩

/-! ## Memory-file detection (`_detect_memory_files`) -/

/-- The record-name derivation of `_detect_memory_files`:
`"-".join(parent_parts) + f"-{stem}" if parent_parts else stem`. -/
def memoryName (parent_parts : List String) (stem : String) : String :=
  if parent_parts ≠ [] then joinDash parent_parts ++ "-" ++ stem else stem

/-- Python dict insertion with overwrite
(`memory_file_names[cap.memory_file_name] = tool_name`). -/
def upsertAssoc : List (String × String) → String → String → List (String × String)
  | [], k, v => [(k, v)]
  | (k₀, v₀) :: rest, k, v =>
    if k₀ = k then (k₀, v) :: rest else (k₀, v₀) :: upsertAssoc rest k v

def memory_file_names (entries : List IDECapability) : List (String × String) :=
  entries.foldl (fun acc cap =>
    match cap.memory_file_name with
    | some n => upsertAssoc acc n cap.tool_value
    | none => acc) []

def MEMORY_SKIP_DIRS : List String :=
  ["node_modules", "venv", ".venv", "__pycache__", "dist", "build"]

def MEMORY_DOT_ALLOW : List String := [".claude", ".github"]

/-- One `rglob` match of the memory-file walk: skip the root file, skip
non-files and already-seen paths, then the dot-directory and
dependency-directory filters, then read and name the record. -/
def process_memory_match (env : DetectEnv) (root root_memory : List String)
    (stem toolName : String)
    (st : List DetectedMemoryFile × List (List String)) (rel : List String) :
    List DetectedMemoryFile × List (List String) :=
  let file_path := root ++ rel
  if file_path = root_memory then st
  else if !(env.fs.isFile file_path) then st
  else if listHasPath st.2 file_path then st
  else
    let seen := file_path :: st.2
    if rel.dropLast.any (fun p =>
        List.isPrefixOf ".".data p.data && !(MEMORY_DOT_ALLOW.contains p)) then
      (st.1, seen)
    else if rel.any (fun p => MEMORY_SKIP_DIRS.contains p) then (st.1, seen)
    else
      match env.fs.readText file_path with
      | some content =>
        (st.1 ++ [{ name := memoryName rel.dropLast stem, file_path := file_path,
                    relative_path := relStr rel, is_root := false,
                    content_preview := strTake content 100,
                    source_tool := toolName }], seen)
      | none => (st.1, seen)

/-- One declared memory-file name: the root-file check followed by the
recursive walk. -/
def process_memory_name (env : DetectEnv) (root : List String)
    (st : List DetectedMemoryFile × List (List String)) (nm : String × String) :
    List DetectedMemoryFile × List (List String) :=
  let stem := stemOf nm.1
  let root_memory := root ++ [nm.1]
  let st1 :=
    if env.fs.pathExists root_memory && env.fs.isFile root_memory &&
        !(listHasPath st.2 root_memory) then
      match env.fs.readText root_memory with
      | some content =>
        (st.1 ++ [{ name := stem, file_path := root_memory, relative_path := nm.1,
                    is_root := true, content_preview := strTake content 100,
                    source_tool := nm.2 }], root_memory :: st.2)
      | none => (st.1, root_memory :: st.2)
    else st
  (env.fs.rglob root nm.1).foldl (process_memory_match env root root_memory stem nm.2) st1

/-- Embeds `ComponentDetector._detect_memory_files` over an explicit entry
list. -/
def detect_memory_files (env : DetectEnv) (root : List String)
    (entries : List IDECapability) : List DetectedMemoryFile :=
  ((memory_file_names entries).foldl (process_memory_name env root) ([], [])).1

/-! ## C9: non-root memory-file names -/

def c9FS : FS :=
  { pathExists := fun _ => false
    isDir := fun _ => false
    isFile := fun p => decide (p = ["proj", "a-b", "CLAUDE.md"] ∨
      p = ["proj", "a", "b", "CLAUDE.md"])
    content := fun _ => none
    readText := fun p =>
      if p = ["proj", "a-b", "CLAUDE.md"] ∨ p = ["proj", "a", "b", "CLAUDE.md"] then
        some "" else none
    resolve := fun p => p
    listJsonFiles := fun _ => []
    rglob := fun root name =>
      if root = ["proj"] ∧ name = "CLAUDE.md" then
        [["a-b", "CLAUDE.md"], ["a", "b", "CLAUDE.md"]]
      else [] }

def c9Env : DetectEnv :=
  { fs := c9FS, home := ["home", "u"], pipResolver := fun _ _ => none }

/-- C9 counterexample: the distinct non-root memory files
`a-b/CLAUDE.md` and `a/b/CLAUDE.md` (same file name, different
subdirectories) both derive the record name `a-b-CLAUDE` in one detection
pass — the dash-join of parent segments is ambiguous when a directory
name itself contains a dash. -/
theorem memory_name_collision_counterexample :
    (detect_memory_files c9Env ["proj"] CAPABILITY_REGISTRY).map
        (fun m => (m.name, m.relative_path, m.is_root)) =
      [("a-b-CLAUDE", "a-b/CLAUDE.md", false),
       ("a-b-CLAUDE", "a/b/CLAUDE.md", false)] := by
  decide

def charJoin : List (List Char) → List Char
  | [] => []
  | [s] => s
  | s :: rest => s ++ '-' :: charJoin rest

theorem joinDash_data (l : List String) :
    (joinDash l).data = charJoin (l.map String.data) := by
  induction l with
  | nil => rfl
  | cons s rest ih =>
    rcases rest with _ | ⟨t, more⟩
    · rfl
    · have h1 : (joinDash (s :: t :: more)).data =
          (s.data ++ ['-']) ++ (joinDash (t :: more)).data := rfl
      rw [h1, ih, List.append_assoc]
      rfl

theorem dash_split_unique (a : List Char) :
    ∀ (b r₁ r₂ : List Char), '-' ∉ a → '-' ∉ b →
      a ++ '-' :: r₁ = b ++ '-' :: r₂ → a = b ∧ r₁ = r₂ := by
  induction a with
  | nil =>
    intro b r₁ r₂ _ hb h
    rcases b with _ | ⟨c, b2⟩
    · simpa using h
    · injection h with h1 h2
      exact absurd (h1 ▸ List.mem_cons_self c b2) hb
  | cons c a2 ih =>
    intro b r₁ r₂ ha hb h
    rcases b with _ | ⟨d, b2⟩
    · injection h with h1 h2
      exact absurd (h1 ▸ List.mem_cons_self c a2) ha
    · injection h with h1 h2
      have ha2 : '-' ∉ a2 := fun hm => ha (List.mem_cons_of_mem _ hm)
      have hb2 : '-' ∉ b2 := fun hm => hb (List.mem_cons_of_mem _ hm)
      obtain ⟨e1, e2⟩ := ih b2 r₁ r₂ ha2 hb2 h2
      exact ⟨by rw [h1, e1], e2⟩

theorem charJoin_inj (l₁ : List (List Char)) :
    ∀ (l₂ : List (List Char)), l₁ ≠ [] → l₂ ≠ [] →
      (∀ s ∈ l₁, '-' ∉ s) → (∀ s ∈ l₂, '-' ∉ s) →
      charJoin l₁ = charJoin l₂ → l₁ = l₂ := by
  induction l₁ with
  | nil => intro l₂ h₁; exact absurd rfl h₁
  | cons s t ih =>
    intro l₂ _ h₂ hd₁ hd₂ h
    rcases l₂ with _ | ⟨s₂, t₂⟩
    · exact absurd rfl h₂
    · rcases t with _ | ⟨u₁, t₁⟩
      · rcases t₂ with _ | ⟨u₂, t₂⟩
        · rw [show charJoin [s] = s from rfl, show charJoin [s₂] = s₂ from rfl] at h
          rw [h]
        · rw [show charJoin [s] = s from rfl,
            show charJoin (s₂ :: u₂ :: t₂) = s₂ ++ '-' :: charJoin (u₂ :: t₂) from rfl] at h
          have : '-' ∈ s := by
            rw [h]
            exact List.mem_append_right _ (List.mem_cons_self _ _)
          exact absurd this (hd₁ s (List.mem_cons_self _ _))
      · rcases t₂ with _ | ⟨u₂, t₂⟩
        · rw [show charJoin [s₂] = s₂ from rfl,
            show charJoin (s :: u₁ :: t₁) = s ++ '-' :: charJoin (u₁ :: t₁) from rfl] at h
          have : '-' ∈ s₂ := by
            rw [← h]
            exact List.mem_append_right _ (List.mem_cons_self _ _)
          exact absurd this (hd₂ s₂ (List.mem_cons_self _ _))
        · rw [show charJoin (s :: u₁ :: t₁) = s ++ '-' :: charJoin (u₁ :: t₁) from rfl,
            show charJoin (s₂ :: u₂ :: t₂) = s₂ ++ '-' :: charJoin (u₂ :: t₂) from rfl] at h
          obtain ⟨e1, e2⟩ := dash_split_unique s s₂ _ _
            (hd₁ s (List.mem_cons_self _ _)) (hd₂ s₂ (List.mem_cons_self _ _)) h
          have e3 := ih (u₂ :: t₂) (by simp) (by simp)
            (fun x hx => hd₁ x (List.mem_cons_of_mem _ hx))
            (fun x hx => hd₂ x (List.mem_cons_of_mem _ hx)) e2
          rw [e1, e3]

theorem joinDash_inj (p₁ p₂ : List String) (h₁ : p₁ ≠ []) (h₂ : p₂ ≠ [])
    (hd₁ : ∀ s ∈ p₁, ¬ ('-' ∈ s.data)) (hd₂ : ∀ s ∈ p₂, ¬ ('-' ∈ s.data))
    (h : joinDash p₁ = joinDash p₂) : p₁ = p₂ := by
  have hdata := congrArg String.data h
  rw [joinDash_data, joinDash_data] at hdata
  have hmap := charJoin_inj (p₁.map String.data) (p₂.map String.data)
    (by simpa using h₁) (by simpa using h₂)
    (fun s hs => by
      obtain ⟨x, hx, he⟩ := List.mem_map.mp hs
      exact he ▸ hd₁ x hx)
    (fun s hs => by
      obtain ⟨x, hx, he⟩ := List.mem_map.mp hs
      exact he ▸ hd₂ x hx)
    hdata
  exact List.map_injective_iff.mpr (fun a b hab => string_data_injective hab) hmap

/-- C9 (amended): the non-root memory-file record name is the dash-join
of the parent directory segments plus the file stem (`memoryName`, as
used by the detection pass).  Two distinct non-root files with the same
file name receive distinct derived names provided no parent directory
segment itself contains a dash; when a segment contains a dash the join
is ambiguous and names can collide (see the counterexample). -/
theorem memory_names_distinct_for_dashfree_parents (p₁ p₂ : List String)
    (stem : String) (h₁ : p₁ ≠ []) (h₂ : p₂ ≠ []) (hne : p₁ ≠ p₂)
    (hd₁ : ∀ s ∈ p₁, ¬ ('-' ∈ s.data)) (hd₂ : ∀ s ∈ p₂, ¬ ('-' ∈ s.data)) :
    memoryName p₁ stem ≠ memoryName p₂ stem := by
  intro he
  unfold memoryName at he
  rw [if_pos h₁, if_pos h₂] at he
  have h3 : joinDash p₁ ++ "-" = joinDash p₂ ++ "-" := string_append_right_cancel he
  have h4 : joinDash p₁ = joinDash p₂ := string_append_right_cancel h3
  exact hne (joinDash_inj p₁ p₂ h₁ h₂ hd₁ hd₂ h4)

theorem memory_names_distinct_for_dashfree_parents_witness :
    (["a"] : List String) ≠ [] ∧ (["b"] : List String) ≠ [] ∧
      (["a"] : List String) ≠ ["b"] ∧
      memoryName ["a"] "CLAUDE" ≠ memoryName ["b"] "CLAUDE" :=
  ⟨by decide, by decide, by decide,
    memory_names_distinct_for_dashfree_parents ["a"] ["b"] "CLAUDE"
      (by decide) (by decide) (by decide)
      (by
        intro s hs
        have : s = "a" := by simpa using hs
        rw [this]
        decide)
      (by
        intro s hs
        have : s = "b" := by simpa using hs
        rw [this]
        decide)⟩

/-! ## C8 witness -/

def c8Result : DetectionResult :=
  { hooks := [{ name := "h1", file_path := ["proj", "h1.sh"], relative_path := "h1.sh",
                hook_type := "Stop", source_tool := "claude" },
              { name := "h2", file_path := ["proj", "h2.sh"], relative_path := "h2.sh",
                hook_type := "Stop", source_tool := "cursor" }],
    resources := [{ name := "r", file_path := ["proj", "r.bin"],
                    relative_path := "r.bin", size := 1, checksum := "aa" }] }

theorem filter_detection_result_tool_filter_witness :
    (["claude"] : List String) ≠ [] ∧
      (filter_detection_result c8Result (some ["claude"]) none).resources =
        (if kindAllowed none "resources" then c8Result.resources else []) ∧
      (filter_detection_result c8Result (some ["claude"]) none).hooks =
        (if kindAllowed none "hooks" then
          c8Result.hooks.filter (fun i => toolMatch ["claude"] i.source_tool) else []) :=
  ⟨by decide,
    (filter_detection_result_tool_filter c8Result ["claude"] none (by decide)).2.2.2.2.2.2.2,
    (filter_detection_result_tool_filter c8Result ["claude"] none (by decide)).2.2.1⟩

end DevSync
